import Mathlib

/-!
Shallow embedding of the hook-event analytics core of claude-hook-logger:
the summary engine, session-detail projector and query layer of
src/viewer/data.ts, together with the pure filtering core of the
search handler (handleSearchEvents).

JavaScript strings are modelled as Lean strings; the string primitives the
code relies on (lexicographic comparison, trim, toLowerCase, startsWith,
includes, split-on-whitespace) are implemented structurally over the
character list so that every definition evaluates inside the kernel.
JavaScript Maps and Sets are modelled as insertion-ordered association
lists and duplicate-free lists.  Date.now() and new Date(s).getTime() are
modelled by an explicit wall-clock parameter together with a timestamp
parser parameter returning Option Int, where none plays the role of NaN
(every NaN comparison is false).
-/

/-- Lexicographic comparison of character lists; model of the JavaScript
string less-than operator used for timestamp comparisons. -/
def chLt : List Char → List Char → Bool
  | [], [] => false
  | [], _ :: _ => true
  | _ :: _, [] => false
  | a :: l, b :: m =>
    if a.toNat < b.toNat then true
    else if b.toNat < a.toNat then false
    else chLt l m

/-- Model of the JavaScript string comparison a < b. -/
def jsLt (a b : String) : Bool := chLt a.data b.data

/-- Character-list test that the first argument starts the second. -/
def chPfx : List Char → List Char → Bool
  | [], _ => true
  | _ :: _, [] => false
  | a :: l, b :: m => if a = b then chPfx l m else false

/-- Model of JavaScript s.startsWith(p). -/
def jsStartsWith (s p : String) : Bool := chPfx p.data s.data

/-- Character-list test that the first argument occurs contiguously inside
the second. -/
def chSub (needle : List Char) : List Char → Bool
  | [] => chPfx needle []
  | b :: t => if chPfx needle (b :: t) then true else chSub needle t

/-- Model of JavaScript s.includes(p). -/
def jsIncludes (s p : String) : Bool := chSub p.data s.data

/-- Model of JavaScript s.toLowerCase(), faithful on ASCII. -/
def jsToLower (s : String) : String := String.mk (s.data.map Char.toLower)

/-- Model of JavaScript s.trim(). -/
def jsTrim (s : String) : String :=
  String.mk (((s.data.dropWhile Char.isWhitespace).reverse.dropWhile Char.isWhitespace).reverse)

/-- Model of JavaScript s.split(on whitespace)[0]: the longest leading chunk
free of whitespace characters. -/
def firstToken (s : String) : String :=
  String.mk (s.data.takeWhile (fun c => !c.isWhitespace))

/-- Model of JavaScript s.slice(1). -/
def sliceOne (s : String) : String := String.mk (s.data.drop 1)

/-- JavaScript truthiness on an optional string: undefined and the empty
string are falsy. -/
def truthy : Option String → Option String
  | some s => if s = "" then none else some s
  | none => none

/-- Payload of a log event (interface LogEvent.data, src/viewer/data.ts). -/
structure EventData where
  tool_name : Option String
  tool_use_id : Option String
  tool_input_summary : Option String
  stop_hook_active : Bool
  prompt : Option String
deriving Repr, DecidableEq

/-- One parsed log line (interface LogEvent, src/viewer/data.ts). -/
structure LogEvent where
  event : String
  session_id : Option String
  ts : String
  cwd : Option String
  permission_mode : Option String
  data : Option EventData
deriving Repr, DecidableEq

/-- Model of the JavaScript access ev.data?.tool_name. -/
def toolNameOf (ev : LogEvent) : Option String := ev.data.bind (fun d => d.tool_name)

/-- Model of the JavaScript access ev.data?.tool_use_id. -/
def toolUseIdOf (ev : LogEvent) : Option String := ev.data.bind (fun d => d.tool_use_id)

/-- Model of the JavaScript access ev.data?.tool_input_summary. -/
def summaryOf (ev : LogEvent) : Option String := ev.data.bind (fun d => d.tool_input_summary)

/-- Model of the JavaScript access ev.data?.prompt. -/
def promptOf (ev : LogEvent) : Option String := ev.data.bind (fun d => d.prompt)

/-- Truthiness of ev.data?.stop_hook_active. -/
def stopActive (ev : LogEvent) : Bool :=
  match ev.data with
  | some d => d.stop_hook_active
  | none => false

/-- The fixed built-in slash command set (BUILTIN_COMMANDS, src/viewer/data.ts). -/
def BUILTIN_COMMANDS : List String :=
  ["/clear", "/compact", "/config", "/context", "/copy", "/cost",
   "/debug", "/desktop", "/doctor", "/exit", "/export", "/help",
   "/init", "/mcp", "/memory", "/model", "/permissions", "/plan",
   "/rename", "/resume", "/rewind", "/stats", "/status", "/statusline",
   "/tasks", "/teleport", "/theme", "/todos", "/usage",
   "/add-dir", "/agents", "/bug", "/hooks", "/ide",
   "/install-github-app", "/login", "/logout", "/output-style",
   "/plugin", "/pr-comments", "/privacy-settings", "/release-notes",
   "/remote-env", "/review", "/sandbox", "/security-review",
   "/terminal-setup", "/vim", "/fast", "/slow", "/listen"]

/-- isBuiltinCommand (src/viewer/data.ts lines 19-22): lowercase the first
whitespace-delimited token of the prompt and test membership in the
built-in command set. -/
def isBuiltinCommand (p : String) : Bool :=
  decide (jsToLower (firstToken p) ∈ BUILTIN_COMMANDS)

/-- Derived per-session record (interface SessionInfo, src/viewer/data.ts). -/
structure SessionInfo where
  id : String
  cwd : String
  eventCount : Nat
  firstTs : String
  lastTs : String
  hasInterrupt : Bool
  orphanCount : Nat
  hasSessionStart : Bool
  hasSessionEnd : Bool
  isLive : Bool
  isStale : Bool
deriving Repr, DecidableEq

/-- A (name, count) histogram entry (interface ToolUsageEntry). -/
structure ToolUsageEntry where
  name : String
  count : Nat
deriving Repr, DecidableEq

/-- The aggregate produced by buildSummary (interface Summary). -/
structure Summary where
  totalEvents : Nat
  sessionCount : Nat
  liveSessionCount : Nat
  staleSessionCount : Nat
  toolCount : Nat
  interruptCount : Nat
  orphanCount : Nat
  sessions : List SessionInfo
  toolUsage : List ToolUsageEntry
  skillUsage : List ToolUsageEntry
  orphanIds : List String
deriving Repr, DecidableEq

/-- The session bucket key: ev.session_id falling back, under JavaScript
truthiness, to the literal unknown (line 115). -/
def sessionKey (ev : LogEvent) : String :=
  match ev.session_id with
  | none => "unknown"
  | some s => if s = "" then "unknown" else s

/-- Association-list membership test on the key (model of Map.has). -/
def containsKey (m : List (String × α)) (k : String) : Bool :=
  m.any (fun q => q.1 = k)

/-- Association-list lookup on the key (model of Map.get). -/
def lookupA (m : List (String × α)) (k : String) : Option α :=
  (m.find? (fun q => q.1 = k)).map (fun q => q.2)

/-- In-place update of the first entry holding the key (model of mutating
the record obtained from Map.get). -/
def modifyFirst (f : α → α) (k : String) : List (String × α) → List (String × α)
  | [] => []
  | q :: r => if q.1 = k then (q.1, f q.2) :: r else q :: modifyFirst f k r

/-- Increment-or-insert on an insertion-ordered counter map
(model of m.set(k, (m.get(k) || 0) + 1)). -/
def bumpCount : List (String × Nat) → String → List (String × Nat)
  | [], k => [(k, 1)]
  | (n, c) :: r, k => if n = k then (n, c + 1) :: r else (n, c) :: bumpCount r k

/-- Insert-if-absent at the end (model of Set.add on an insertion-ordered set). -/
def addId (l : List String) (id : String) : List String :=
  if id ∈ l then l else l ++ [id]

/-- The fresh session record created on first sight of a session key
(lines 117-129). -/
def freshSession (sid : String) (ev : LogEvent) : SessionInfo :=
  { id := sid
    cwd := (truthy ev.cwd).getD ""
    eventCount := 0
    firstTs := ev.ts
    lastTs := ev.ts
    hasInterrupt := false
    orphanCount := 0
    hasSessionStart := false
    hasSessionEnd := false
    isLive := false
    isStale := false }

/-- The per-event mutation of the owning session record performed inside the
main loop (lines 132-134 and 164-170), written field-wise: the event count
is incremented; firstTs and lastTs are updated by string min and max; the
SessionStart, SessionEnd and qualifying-Stop sightings latch their flags. -/
def updSession (ev : LogEvent) (s : SessionInfo) : SessionInfo :=
  { id := s.id
    cwd := s.cwd
    eventCount := s.eventCount + 1
    firstTs := if jsLt ev.ts s.firstTs then ev.ts else s.firstTs
    lastTs := if jsLt s.lastTs ev.ts then ev.ts else s.lastTs
    hasInterrupt := s.hasInterrupt || (ev.event = "Stop" && stopActive ev)
    orphanCount := s.orphanCount
    hasSessionStart := s.hasSessionStart || ev.event = "SessionStart"
    hasSessionEnd := s.hasSessionEnd || ev.event = "SessionEnd"
    isLive := s.isLive
    isStale := s.isStale }

/-- One main-loop step on the session map: create the bucket on first sight
(lines 116-130), then apply the per-event mutation. -/
def stepSessions (m : List (String × SessionInfo)) (ev : LogEvent) : List (String × SessionInfo) :=
  let sid := sessionKey ev
  let m1 := if containsKey m sid then m else m ++ [(sid, freshSession sid ev)]
  modifyFirst (updSession ev) sid m1

/-- One main-loop step on the global tool counter (lines 139-141). -/
def stepTool (m : List (String × Nat)) (ev : LogEvent) : List (String × Nat) :=
  match truthy (toolNameOf ev) with
  | some t => bumpCount m t
  | none => m

/-- One main-loop step on the skill counter: the PreToolUse/Skill branch
(lines 143-146) followed by the UserPromptSubmit slash-command branch
(lines 149-155). -/
def stepSkill (m : List (String × Nat)) (ev : LogEvent) : List (String × Nat) :=
  let m1 :=
    if ev.event = "PreToolUse" ∧ toolNameOf ev = some "Skill" then
      bumpCount m ((truthy (summaryOf ev)).getD "unknown")
    else m
  if ev.event = "UserPromptSubmit" then
    let p := jsTrim ((promptOf ev).getD "")
    if jsStartsWith p "/" ∧ ¬ isBuiltinCommand p then
      bumpCount m1 (sliceOne (firstToken p))
    else m1
  else m1

/-- The opened tool-use id carried by a PreToolUse event, when truthy
(guard of line 157). -/
def preIdOf (ev : LogEvent) : Option String :=
  if ev.event = "PreToolUse" then truthy (toolUseIdOf ev) else none

/-- The closed tool-use id carried by a PostToolUse or PostToolUseFailure
event, when truthy (guard of line 160). -/
def postIdOf (ev : LogEvent) : Option String :=
  if ev.event = "PostToolUse" ∨ ev.event = "PostToolUseFailure" then truthy (toolUseIdOf ev)
  else none

/-- One main-loop step on the opened-id set (lines 157-159). -/
def stepPre (l : List String) (ev : LogEvent) : List String :=
  match preIdOf ev with
  | some id => addId l id
  | none => l

/-- One main-loop step on the closed-id set (lines 160-162). -/
def stepPost (l : List String) (ev : LogEvent) : List String :=
  match postIdOf ev with
  | some id => addId l id
  | none => l

/-- One main-loop step on the interrupt list (lines 167-170). -/
def stepInterrupts (l : List LogEvent) (ev : LogEvent) : List LogEvent :=
  if ev.event = "Stop" ∧ stopActive ev then l ++ [ev] else l

/-- The mutable state threaded through the single pass of buildSummary. -/
structure BState where
  sessions : List (String × SessionInfo)
  toolCounts : List (String × Nat)
  skillCounts : List (String × Nat)
  preToolIds : List String
  postToolIds : List String
  interrupts : List LogEvent
deriving Repr

/-- One full iteration of the main loop (lines 114-171); each component of
the state is updated by its own step function. -/
def stepEvent (st : BState) (ev : LogEvent) : BState :=
  { sessions := stepSessions st.sessions ev
    toolCounts := stepTool st.toolCounts ev
    skillCounts := stepSkill st.skillCounts ev
    preToolIds := stepPre st.preToolIds ev
    postToolIds := stepPost st.postToolIds ev
    interrupts := stepInterrupts st.interrupts ev }

/-- The empty state the single pass starts from (lines 106-111). -/
def initState : BState := ⟨[], [], [], [], [], []⟩

/-- LIVE_THRESHOLD_MS = 5 * 60 * 1000 (line 173). -/
def LIVE_THRESHOLD_MS : Int := 5 * 60 * 1000

/-- The liveness classification applied to every session after the main pass
(lines 175-185).  parseTime models new Date(s).getTime(); none models NaN,
for which both comparisons are false. -/
def classifySession (parseTime : String → Option Int) (now : Int) (s : SessionInfo) : SessionInfo :=
  if s.hasSessionStart ∧ ¬ s.hasSessionEnd then
    match parseTime s.lastTs with
    | some t =>
      { s with isLive := decide (now - t ≤ LIVE_THRESHOLD_MS)
               isStale := decide (LIVE_THRESHOLD_MS < now - t) }
    | none => { s with isLive := false, isStale := false }
  else { s with isLive := false, isStale := false }

/-- One step of the orphan-attribution loop (lines 192-197): a PreToolUse
event whose truthy id is orphaned increments its owning session, when that
session exists. -/
def orphanStep (orphans : List String) (m : List (String × SessionInfo)) (ev : LogEvent) :
    List (String × SessionInfo) :=
  match preIdOf ev with
  | some id =>
    if id ∈ orphans then
      modifyFirst (fun s => { s with orphanCount := s.orphanCount + 1 }) (sessionKey ev) m
    else m
  | none => m

/-- Stable insertion of an element into a list under a boolean precedence
test. -/
def insertBy (le : α → α → Bool) (a : α) : List α → List α
  | [] => [a]
  | b :: l => if le a b then a :: b :: l else b :: insertBy le a l

/-- Stable insertion sort; model of the stable JavaScript Array sort. -/
def sortBy (le : α → α → Bool) : List α → List α
  | [] => []
  | a :: l => insertBy le a (sortBy le l)

/-- Descending-by-count precedence used for the tool and skill histograms
(comparator (a, b) => b.count - a.count, lines 199-205). -/
def byCountDesc (a b : ToolUsageEntry) : Bool := decide (b.count ≤ a.count)

/-- Most-recently-active-first precedence used for the session list
(comparator (a, b) => b.lastTs > a.lastTs ? 1 : -1, line 215). -/
def byLastTsDesc (a b : SessionInfo) : Bool := ! jsLt a.lastTs b.lastTs

/-- buildSummary (src/viewer/data.ts lines 105-220): single pass over the
events, liveness classification, orphan detection and attribution, and
assembly of the sorted aggregate. -/
def buildSummary (parseTime : String → Option Int) (now : Int) (events : List LogEvent) : Summary :=
  let st := events.foldl stepEvent initState
  let classified := st.sessions.map (fun q => (q.1, classifySession parseTime now q.2))
  let orphanIds := st.preToolIds.filter (fun id => decide (id ∉ st.postToolIds))
  let attributed := events.foldl (orphanStep orphanIds) classified
  let toolUsage := sortBy byCountDesc (st.toolCounts.map (fun q => ⟨q.1, q.2⟩))
  let skillUsage := sortBy byCountDesc (st.skillCounts.map (fun q => ⟨q.1, q.2⟩))
  { totalEvents := events.length
    sessionCount := attributed.length
    liveSessionCount := ((attributed.map (fun q => q.2)).filter (fun s => s.isLive)).length
    staleSessionCount := ((attributed.map (fun q => q.2)).filter (fun s => s.isStale)).length
    toolCount := toolUsage.length
    interruptCount := st.interrupts.length
    orphanCount := orphanIds.length
    sessions := sortBy byLastTsDesc (attributed.map (fun q => q.2))
    toolUsage := toolUsage
    skillUsage := skillUsage
    orphanIds := orphanIds }

/-- getSessionEvents (lines 264-269): select the events whose session id,
defaulting to the empty string, equals the argument or starts with it. -/
def getSessionEvents (events : List LogEvent) (sessionId : String) : List LogEvent :=
  events.filter (fun ev =>
    let sid := ev.session_id.getD ""
    decide (sid = sessionId) || jsStartsWith sid sessionId)

/-- One simplified per-event line of a session detail (lines 308-313):
the optional fields are present exactly when their source is truthy. -/
structure DetailEventEntry where
  event : String
  ts : String
  tool : Option String
  detail : Option String
deriving Repr, DecidableEq

/-- The object returned by buildSessionDetail (lines 271-280). -/
structure SessionDetail where
  sessionId : String
  eventCount : Nat
  firstTs : Option String
  lastTs : Option String
  cwd : String
  tools : List ToolUsageEntry
  skills : List ToolUsageEntry
  events : List DetailEventEntry
deriving Repr, DecidableEq

/-- buildSessionDetail (lines 271-325): filter to the selected session, and
on a non-empty selection recompute timestamps, first truthy cwd, tool and
PreToolUse/Skill histograms, and the flattened per-event list; on an empty
selection return the zeroed detail. -/
def buildSessionDetail (events : List LogEvent) (sessionId : String) : SessionDetail :=
  let sessionEvents := getSessionEvents events sessionId
  match sessionEvents with
  | [] => ⟨sessionId, 0, none, none, "", [], [], []⟩
  | e0 :: _ =>
    let firstTs := sessionEvents.foldl (fun a e => if jsLt e.ts a then e.ts else a) e0.ts
    let lastTs := sessionEvents.foldl (fun a e => if jsLt a e.ts then e.ts else a) e0.ts
    let cwd := sessionEvents.foldl
      (fun a e =>
        match truthy e.cwd with
        | some c => if a = "" then c else a
        | none => a) ""
    let toolCounts := sessionEvents.foldl stepTool []
    let skillCounts := sessionEvents.foldl
      (fun m e =>
        if e.event = "PreToolUse" ∧ toolNameOf e = some "Skill" then
          bumpCount m ((truthy (summaryOf e)).getD "unknown")
        else m) []
    let eventList := sessionEvents.map
      (fun e => DetailEventEntry.mk e.event e.ts (truthy (toolNameOf e)) (truthy (summaryOf e)))
    { sessionId := sessionId
      eventCount := sessionEvents.length
      firstTs := some firstTs
      lastTs := some lastTs
      cwd := cwd
      tools := sortBy byCountDesc (toolCounts.map (fun q => ⟨q.1, q.2⟩))
      skills := sortBy byCountDesc (skillCounts.map (fun q => ⟨q.1, q.2⟩))
      events := eventList }

/-- Arguments of the search handler (handleSearchEvents). -/
structure SearchArgs where
  event_type : Option String
  tool_name : Option String
  text_search : Option String
  session_id : Option String
  limit : Option Nat
deriving Repr, DecidableEq

/-- One row of the search result list. -/
structure SearchResultEntry where
  event : String
  session_id : Option String
  ts : String
  tool : Option String
  detail : Option String
deriving Repr, DecidableEq

/-- The object returned by the search handler. -/
structure SearchResult where
  totalMatches : Nat
  results : List SearchResultEntry
  truncated : Bool
deriving Repr, DecidableEq

/-- The projection applied to each returned event (detail falls back from a
truthy tool_input_summary to the raw prompt field). -/
def projEntry (ev : LogEvent) : SearchResultEntry :=
  { event := ev.event
    session_id := ev.session_id
    ts := ev.ts
    tool := toolNameOf ev
    detail :=
      match truthy (summaryOf ev) with
      | some s => some s
      | none => promptOf ev }

/-- The pure filtering core of handleSearchEvents (MCP tool module, lines
134-165): sequential truthy-guarded filters for session prefix, exact event
type, exact tool name and case-insensitive text, then capping at limit
(defaulting to 50) with a truncation flag and the true match count. -/
def handleSearchEvents (events : List LogEvent) (args : SearchArgs) : SearchResult :=
  let e1 : List LogEvent :=
    match truthy args.session_id with
    | some sid => getSessionEvents events sid
    | none => events
  let e2 : List LogEvent :=
    match truthy args.event_type with
    | some t => e1.filter (fun ev => decide (ev.event = t))
    | none => e1
  let e3 : List LogEvent :=
    match truthy args.tool_name with
    | some t => e2.filter (fun ev => decide (toolNameOf ev = some t))
    | none => e2
  let e4 : List LogEvent :=
    match truthy args.text_search with
    | some q =>
      let s := jsToLower q
      e3.filter (fun ev =>
        jsIncludes (jsToLower ((summaryOf ev).getD "")) s ||
        jsIncludes (jsToLower ((promptOf ev).getD "")) s)
    | none => e3
  let lim := args.limit.getD 50
  { totalMatches := e4.length
    results := (e4.take lim).map projEntry
    truncated := decide (lim < e4.length) }

/- ------------------------------------------------------------------ -/
/- Specification-side counting functions used to state the claims.     -/
/- ------------------------------------------------------------------ -/

/-- Number of events that fall into the session bucket of the given key. -/
def countKey (k : String) (events : List LogEvent) : Nat :=
  (events.filter (fun e => decide (sessionKey e = k))).length

/-- Number of events carrying the given truthy tool name. -/
def countToolName (events : List LogEvent) (name : String) : Nat :=
  (events.filter (fun e => decide (truthy (toolNameOf e) = some name))).length

/-- The skill name an event contributes to the skill histogram, if any:
either a PreToolUse of the Skill tool (named by its truthy
tool_input_summary, falling back to unknown), or a UserPromptSubmit whose
trimmed prompt starts with a slash and whose first token is not a built-in
command (named by the token minus the slash). -/
def skillNameOf (ev : LogEvent) : Option String :=
  if ev.event = "PreToolUse" ∧ toolNameOf ev = some "Skill" then
    some ((truthy (summaryOf ev)).getD "unknown")
  else if ev.event = "UserPromptSubmit" then
    let p := jsTrim ((promptOf ev).getD "")
    if jsStartsWith p "/" ∧ ¬ isBuiltinCommand p then some (sliceOne (firstToken p))
    else none
  else none

/-- The skill name an event contributes inside buildSessionDetail, if any:
only the PreToolUse/Skill source. -/
def preSkillNameOf (ev : LogEvent) : Option String :=
  if ev.event = "PreToolUse" ∧ toolNameOf ev = some "Skill" then
    some ((truthy (summaryOf ev)).getD "unknown")
  else none

/-- Number of occurrences of a string in a list. -/
def countOcc (name : String) (l : List String) : Nat :=
  (l.filter (fun x => decide (x = name))).length

/-- The count recorded for a name in a histogram, zero when absent. -/
def entryCount (l : List ToolUsageEntry) (name : String) : Nat :=
  match l.find? (fun e => decide (e.name = name)) with
  | some e => e.count
  | none => 0

/-- An id is orphaned when some PreToolUse event opens it and no PostToolUse
or PostToolUseFailure event closes it. -/
def isOrphanId (events : List LogEvent) (id : String) : Prop :=
  id ∈ events.filterMap preIdOf ∧ id ∉ events.filterMap postIdOf

instance (events : List LogEvent) (id : String) : Decidable (isOrphanId events id) := by
  unfold isOrphanId
  exact instDecidableAnd

/-- Number of PreToolUse events of the given session whose opened id is
orphaned. -/
def countOrphanEvts (events : List LogEvent) (k : String) : Nat :=
  (events.filter (fun e =>
    decide (sessionKey e = k) &&
    match preIdOf e with
    | some i => decide (isOrphanId events i)
    | none => false)).length

/-- First truthy cwd among a list of events. -/
def firstNonEmptyCwd (l : List LogEvent) : Option String :=
  l.findSome? (fun e => truthy e.cwd)

/-- The selection predicate exactly as the claim states it: the session id
defaults to the literal unknown when absent, and the event is selected when
that id equals the selector or starts with it. -/
def specSelects (ev : LogEvent) (sel : String) : Bool :=
  let sid := ev.session_id.getD "unknown"
  decide (sid = sel) || jsStartsWith sid sel

/-- The conjunction of all supplied search filters, as the claim states it. -/
def matchPred (args : SearchArgs) (ev : LogEvent) : Bool :=
  (match args.session_id with
   | some sel =>
     let sid := ev.session_id.getD ""
     decide (sid = sel) || jsStartsWith sid sel
   | none => true) &&
  (match args.event_type with
   | some t => decide (ev.event = t)
   | none => true) &&
  (match args.tool_name with
   | some t => decide (toolNameOf ev = some t)
   | none => true) &&
  (match args.text_search with
   | some q =>
     jsIncludes (jsToLower ((summaryOf ev).getD "")) (jsToLower q) ||
     jsIncludes (jsToLower ((promptOf ev).getD "")) (jsToLower q)
   | none => true)

/-- A trivial timestamp parser used to instantiate the wall-clock dependent
theorems at concrete inputs. -/
def parseZero : String → Option Int := fun _ => some 0

/-- Lookup in a counter map, zero when absent (model of m.get(k) || 0). -/
def lookupNat (m : List (String × Nat)) (k : String) : Nat :=
  (lookupA m k).getD 0

/-- Replay of the per-event session mutation over a list of events. -/
def applyAll (l : List LogEvent) (s : SessionInfo) : SessionInfo :=
  l.foldl (fun a e => updSession e a) s

/-- Number of PreToolUse events of the given session bucket whose opened id
belongs to the given id list. -/
def countO (o : List String) (events : List LogEvent) (k : String) : Nat :=
  (events.filter (fun e =>
    decide (sessionKey e = k) &&
    match preIdOf e with
    | some i => decide (i ∈ o)
    | none => false)).length

/-- Sum of the event counts of a session map. -/
def sumEC (m : List (String × SessionInfo)) : Nat :=
  (m.map (fun q => q.2.eventCount)).sum

/-- The state after the single pass of buildSummary. -/
def mainState (events : List LogEvent) : BState :=
  events.foldl stepEvent initState

/-- The session map after liveness classification. -/
def classifiedSessions (parseTime : String → Option Int) (now : Int)
    (events : List LogEvent) : List (String × SessionInfo) :=
  (mainState events).sessions.map (fun q => (q.1, classifySession parseTime now q.2))

/-- The deduplicated orphan id list of a run. -/
def orphanList (events : List LogEvent) : List String :=
  (mainState events).preToolIds.filter (fun id => decide (id ∉ (mainState events).postToolIds))

/-- The session map after orphan attribution. -/
def attributedSessions (parseTime : String → Option Int) (now : Int)
    (events : List LogEvent) : List (String × SessionInfo) :=
  events.foldl (orphanStep (orphanList events)) (classifiedSessions parseTime now events)

/- ------------------------------------------------------------------ -/
/- Concrete inputs used to instantiate the theorems.                   -/
/- ------------------------------------------------------------------ -/

/-- A SessionStart event of session sa carrying a cwd. -/
def evStart : LogEvent :=
  ⟨"SessionStart", some "sa", "2024-01-01T00:00:00Z", some "/proj", none, none⟩

/-- A PreToolUse of Bash in session sa opening id1. -/
def evPreA : LogEvent :=
  ⟨"PreToolUse", some "sa", "2024-01-01T00:00:01Z", none, none,
    some ⟨some "Bash", some "id1", some "ls -la", false, none⟩⟩

/-- A PostToolUse in session sb closing id1 (a cross-session completion). -/
def evPostB : LogEvent :=
  ⟨"PostToolUse", some "sb", "2024-01-01T00:00:02Z", none, none,
    some ⟨some "Bash", some "id1", none, false, none⟩⟩

/-- A PreToolUse of Read in session sb opening id2. -/
def evPreB : LogEvent :=
  ⟨"PreToolUse", some "sb", "2024-01-01T00:00:03Z", none, none,
    some ⟨some "Read", some "id2", none, false, none⟩⟩

/-- A PreToolUse of Read in session sa opening id2 again. -/
def evPreA2 : LogEvent :=
  ⟨"PreToolUse", some "sa", "2024-01-01T00:00:04Z", none, none,
    some ⟨some "Read", some "id2", none, false, none⟩⟩

/-- A run where id1 is opened in sa but closed in sb, and id2 is opened in
both sessions and never closed. -/
def events10W : List LogEvent := [evPreA, evPostB, evPreB, evPreA2]

/-- The session record produced for sa from the single event evStart. -/
def sWa : SessionInfo :=
  ⟨"sa", "/proj", 1, "2024-01-01T00:00:00Z", "2024-01-01T00:00:00Z",
    false, 0, true, false, true, false⟩

/-- The session record produced for sa from events10W. -/
def sW10a : SessionInfo :=
  ⟨"sa", "", 2, "2024-01-01T00:00:01Z", "2024-01-01T00:00:04Z",
    false, 1, false, false, false, false⟩

/-- A UserPromptSubmit whose prompt invokes the custom slash command
myskill in session s. -/
def evC5 : LogEvent :=
  ⟨"UserPromptSubmit", some "s", "t", none, none,
    some ⟨none, none, none, false, some "/myskill"⟩⟩

/-- An event carrying no session_id at all. -/
def evC7 : LogEvent := ⟨"Notification", none, "t", none, none, none⟩

/-- A SessionStart of session s8 without a cwd. -/
def evC8a : LogEvent := ⟨"SessionStart", some "s8", "t1", none, none, none⟩

/-- A later event of session s8 carrying the first non-empty cwd. -/
def evC8b : LogEvent := ⟨"Notification", some "s8", "t2", some "/late", none, none⟩

/-- Search arguments: event type PreToolUse, session prefix s, limit 1. -/
def argsW : SearchArgs := ⟨some "PreToolUse", none, none, some "s", some 1⟩

/- ------------------------------------------------------------------ -/
/- Small lemmas about the association-list and sorting primitives.     -/
/- ------------------------------------------------------------------ -/

theorem lookupA_cons (q : String × α) (m : List (String × α)) (k : String) :
    lookupA (q :: m) k = if q.1 = k then some q.2 else lookupA m k := by
  by_cases h : q.1 = k <;> simp [lookupA, List.find?_cons, h]

theorem containsKey_iff_mem (m : List (String × α)) (k : String) :
    containsKey m k = true ↔ k ∈ m.map Prod.fst := by
  simp [containsKey, List.any_eq_true, List.mem_map]

theorem lookupA_eq_none_of_not_mem (m : List (String × α)) (k : String)
    (h : k ∉ m.map Prod.fst) : lookupA m k = none := by
  induction m with
  | nil => rfl
  | cons q m ih =>
    simp only [List.map_cons, List.mem_cons] at h
    push_neg at h
    rw [lookupA_cons, if_neg (fun hq => h.1 hq.symm)]
    exact ih h.2

theorem lookupA_isSome_of_mem_keys (m : List (String × α)) (k : String)
    (h : k ∈ m.map Prod.fst) : ∃ v, lookupA m k = some v := by
  induction m with
  | nil => simp at h
  | cons q m ih =>
    rw [lookupA_cons]
    by_cases hq : q.1 = k
    · exact ⟨q.2, by rw [if_pos hq]⟩
    · simp only [List.map_cons, List.mem_cons] at h
      rcases h with h | h
      · exact absurd h.symm hq
      · rw [if_neg hq]
        exact ih h

theorem lookupA_append_some (m l : List (String × α)) (k2 : String) (x : α)
    (h : lookupA m k2 = some x) : lookupA (m ++ l) k2 = some x := by
  induction m with
  | nil => simp [lookupA] at h
  | cons q m ih =>
    rw [lookupA_cons] at h
    rw [List.cons_append, lookupA_cons]
    by_cases hq : q.1 = k2
    · rwa [if_pos hq] at h ⊢
    · rw [if_neg hq] at h ⊢
      exact ih h

theorem lookupA_append_none (m l : List (String × α)) (k2 : String)
    (h : lookupA m k2 = none) : lookupA (m ++ l) k2 = lookupA l k2 := by
  induction m with
  | nil => rfl
  | cons q m ih =>
    rw [lookupA_cons] at h
    rw [List.cons_append, lookupA_cons]
    by_cases hq : q.1 = k2
    · rw [if_pos hq] at h
      exact absurd h (by simp)
    · rw [if_neg hq] at h ⊢
      exact ih h

theorem lookupA_single (k : String) (v : α) (k2 : String) :
    lookupA [(k, v)] k2 = if k = k2 then some v else none := by
  rw [lookupA_cons]
  rfl

theorem modifyFirst_keys (f : α → α) (k : String) (m : List (String × α)) :
    (modifyFirst f k m).map Prod.fst = m.map Prod.fst := by
  induction m with
  | nil => rfl
  | cons q m ih =>
    by_cases h : q.1 = k <;> simp [modifyFirst, h, ih]

theorem lookupA_modifyFirst_self (f : α → α) (k : String) (m : List (String × α)) :
    lookupA (modifyFirst f k m) k = (lookupA m k).map f := by
  induction m with
  | nil => rfl
  | cons q m ih =>
    by_cases h : q.1 = k
    · simp [modifyFirst, h, lookupA_cons]
    · simp [modifyFirst, h, lookupA_cons, ih]

theorem lookupA_modifyFirst_other (f : α → α) (k k2 : String) (m : List (String × α))
    (h : k2 ≠ k) : lookupA (modifyFirst f k m) k2 = lookupA m k2 := by
  induction m with
  | nil => rfl
  | cons q m ih =>
    simp only [modifyFirst]
    by_cases hq : q.1 = k
    · rw [if_pos hq, lookupA_cons, lookupA_cons]
      have hne : ¬ q.1 = k2 := fun hh => h (hh.symm.trans hq)
      rw [if_neg hne, if_neg hne]
    · rw [if_neg hq, lookupA_cons, lookupA_cons]
      by_cases hq2 : q.1 = k2
      · rw [if_pos hq2, if_pos hq2]
      · rw [if_neg hq2, if_neg hq2]
        exact ih

theorem lookupA_map_value (f : α → β) (m : List (String × α)) (k : String) :
    lookupA (m.map (fun q => (q.1, f q.2))) k = (lookupA m k).map f := by
  induction m with
  | nil => rfl
  | cons q m ih =>
    by_cases h : q.1 = k <;> simp [lookupA_cons, h, ih]

theorem mem_of_lookupA (m : List (String × α)) (k : String) (v : α)
    (h : lookupA m k = some v) : (k, v) ∈ m := by
  induction m with
  | nil => simp [lookupA] at h
  | cons q m ih =>
    rw [lookupA_cons] at h
    by_cases hq : q.1 = k
    · rw [if_pos hq] at h
      have hv : q.2 = v := Option.some.inj h
      have hkv : (k, v) = q := by
        cases q
        simp_all
      rw [hkv]
      exact List.mem_cons_self _ _
    · rw [if_neg hq] at h
      exact List.mem_cons_of_mem _ (ih h)

theorem lookupA_of_mem_nodup (m : List (String × α)) (k : String) (v : α)
    (hn : (m.map Prod.fst).Nodup) (h : (k, v) ∈ m) : lookupA m k = some v := by
  induction m with
  | nil => simp at h
  | cons q m ih =>
    simp only [List.map_cons, List.nodup_cons] at hn
    rcases List.mem_cons.mp h with h | h
    · rw [← h, lookupA_cons, if_pos rfl]
    · have hk : q.1 ≠ k := by
        intro hq
        exact hn.1 (hq ▸ (List.mem_map.mpr ⟨(k, v), h, rfl⟩))
      rw [lookupA_cons, if_neg hk]
      exact ih hn.2 h

theorem insertBy_perm (le : α → α → Bool) (a : α) (l : List α) :
    (insertBy le a l).Perm (a :: l) := by
  induction l with
  | nil => exact List.Perm.refl _
  | cons b l ih =>
    by_cases h : le a b
    · simp [insertBy, h]
    · simp only [insertBy, h, if_neg]
      exact (ih.cons b).trans (List.Perm.swap a b l)

theorem sortBy_perm (le : α → α → Bool) (l : List α) : (sortBy le l).Perm l := by
  induction l with
  | nil => exact List.Perm.refl _
  | cons a l ih =>
    exact (insertBy_perm le a (sortBy le l)).trans (ih.cons a)

theorem mem_sortBy (le : α → α → Bool) (l : List α) (a : α) :
    a ∈ sortBy le l ↔ a ∈ l :=
  (sortBy_perm le l).mem_iff

/- ------------------------------------------------------------------ -/
/- The single pass acts componentwise on the state.                    -/
/- ------------------------------------------------------------------ -/

theorem foldState_sessions (evs : List LogEvent) (st : BState) :
    (evs.foldl stepEvent st).sessions = evs.foldl stepSessions st.sessions := by
  induction evs generalizing st with
  | nil => rfl
  | cons e evs ih => simp [List.foldl_cons, ih, stepEvent]

theorem foldState_toolCounts (evs : List LogEvent) (st : BState) :
    (evs.foldl stepEvent st).toolCounts = evs.foldl stepTool st.toolCounts := by
  induction evs generalizing st with
  | nil => rfl
  | cons e evs ih => simp [List.foldl_cons, ih, stepEvent]

theorem foldState_skillCounts (evs : List LogEvent) (st : BState) :
    (evs.foldl stepEvent st).skillCounts = evs.foldl stepSkill st.skillCounts := by
  induction evs generalizing st with
  | nil => rfl
  | cons e evs ih => simp [List.foldl_cons, ih, stepEvent]

theorem foldState_preToolIds (evs : List LogEvent) (st : BState) :
    (evs.foldl stepEvent st).preToolIds = evs.foldl stepPre st.preToolIds := by
  induction evs generalizing st with
  | nil => rfl
  | cons e evs ih => simp [List.foldl_cons, ih, stepEvent]

theorem foldState_postToolIds (evs : List LogEvent) (st : BState) :
    (evs.foldl stepEvent st).postToolIds = evs.foldl stepPost st.postToolIds := by
  induction evs generalizing st with
  | nil => rfl
  | cons e evs ih => simp [List.foldl_cons, ih, stepEvent]

/- ------------------------------------------------------------------ -/
/- Closed form of the session map produced by the single pass.         -/
/- ------------------------------------------------------------------ -/

theorem applyAll_cons (e : LogEvent) (l : List LogEvent) (s : SessionInfo) :
    applyAll (e :: l) s = applyAll l (updSession e s) := rfl

theorem stepSessions_lookup (m : List (String × SessionInfo)) (ev : LogEvent) (k : String) :
    lookupA (stepSessions m ev) k =
      if sessionKey ev = k then
        some (updSession ev ((lookupA m k).getD (freshSession (sessionKey ev) ev)))
      else lookupA m k := by
  simp only [stepSessions]
  by_cases hc : containsKey m (sessionKey ev)
  · rw [if_pos hc]
    by_cases hk : sessionKey ev = k
    · subst hk
      rw [lookupA_modifyFirst_self, if_pos rfl]
      rcases lookupA_isSome_of_mem_keys m _ ((containsKey_iff_mem m _).mp hc) with ⟨v, hv⟩
      rw [hv]
      rfl
    · rw [lookupA_modifyFirst_other _ _ _ _ (fun hh => hk hh.symm), if_neg hk]
  · rw [if_neg hc]
    have hnone : lookupA m (sessionKey ev) = none := by
      apply lookupA_eq_none_of_not_mem
      intro hmem
      exact hc ((containsKey_iff_mem m _).mpr hmem)
    by_cases hk : sessionKey ev = k
    · subst hk
      rw [lookupA_modifyFirst_self, if_pos rfl,
        lookupA_append_none _ _ _ hnone, lookupA_single, if_pos rfl, hnone]
      rfl
    · rw [lookupA_modifyFirst_other _ _ _ _ (fun hh => hk hh.symm), if_neg hk]
      cases hlook : lookupA m k with
      | some v => exact lookupA_append_some _ _ _ _ hlook
      | none => rw [lookupA_append_none _ _ _ hlook, lookupA_single, if_neg hk]

theorem foldSessions_lookup (evs : List LogEvent) (m : List (String × SessionInfo)) (k : String) :
    lookupA (evs.foldl stepSessions m) k =
      match lookupA m k with
      | some s => some (applyAll (evs.filter (fun e => decide (sessionKey e = k))) s)
      | none =>
        match evs.find? (fun e => decide (sessionKey e = k)) with
        | none => none
        | some e0 =>
          some (applyAll (evs.filter (fun e => decide (sessionKey e = k))) (freshSession k e0)) := by
  induction evs generalizing m with
  | nil => cases hlook : lookupA m k <;> simp [hlook, applyAll]
  | cons e evs ih =>
    rw [List.foldl_cons, ih, stepSessions_lookup]
    by_cases hk : sessionKey e = k
    · cases hlook : lookupA m k with
      | some s => simp [hk, hlook, List.filter_cons, List.find?_cons, applyAll_cons]
      | none => simp [hk, hlook, List.filter_cons, List.find?_cons, applyAll_cons]
    · simp [hk, List.filter_cons, List.find?_cons]

theorem updSession_id (ev : LogEvent) (s : SessionInfo) : (updSession ev s).id = s.id := rfl

theorem applyAll_id (l : List LogEvent) (s : SessionInfo) : (applyAll l s).id = s.id := by
  induction l generalizing s with
  | nil => rfl
  | cons e l ih => rw [applyAll_cons, ih, updSession_id]

theorem applyAll_cwd (l : List LogEvent) (s : SessionInfo) : (applyAll l s).cwd = s.cwd := by
  induction l generalizing s with
  | nil => rfl
  | cons e l ih =>
    rw [applyAll_cons, ih]
    rfl

theorem applyAll_orphanCount (l : List LogEvent) (s : SessionInfo) :
    (applyAll l s).orphanCount = s.orphanCount := by
  induction l generalizing s with
  | nil => rfl
  | cons e l ih =>
    rw [applyAll_cons, ih]
    rfl

theorem applyAll_eventCount (l : List LogEvent) (s : SessionInfo) :
    (applyAll l s).eventCount = s.eventCount + l.length := by
  induction l generalizing s with
  | nil => rfl
  | cons e l ih =>
    rw [applyAll_cons, ih]
    simp [updSession]
    omega

theorem applyAll_hasStart (l : List LogEvent) (s : SessionInfo) :
    (applyAll l s).hasSessionStart =
      (s.hasSessionStart || l.any (fun e => decide (e.event = "SessionStart"))) := by
  induction l generalizing s with
  | nil => simp [applyAll]
  | cons e l ih =>
    rw [applyAll_cons, ih]
    simp [updSession, Bool.or_assoc]

theorem applyAll_hasEnd (l : List LogEvent) (s : SessionInfo) :
    (applyAll l s).hasSessionEnd =
      (s.hasSessionEnd || l.any (fun e => decide (e.event = "SessionEnd"))) := by
  induction l generalizing s with
  | nil => simp [applyAll]
  | cons e l ih =>
    rw [applyAll_cons, ih]
    simp [updSession, Bool.or_assoc]

/- ------------------------------------------------------------------ -/
/- Keys, nodup and sum invariants of the session map.                  -/
/- ------------------------------------------------------------------ -/

theorem stepSessions_keys (m : List (String × SessionInfo)) (ev : LogEvent) :
    (stepSessions m ev).map Prod.fst =
      if containsKey m (sessionKey ev) then m.map Prod.fst
      else m.map Prod.fst ++ [sessionKey ev] := by
  simp only [stepSessions]
  by_cases hc : containsKey m (sessionKey ev)
  · rw [if_pos hc, if_pos hc, modifyFirst_keys]
  · rw [if_neg hc, if_neg hc, modifyFirst_keys]
    simp

theorem foldSessions_keys_nodup (evs : List LogEvent) (m : List (String × SessionInfo))
    (h : (m.map Prod.fst).Nodup) : ((evs.foldl stepSessions m).map Prod.fst).Nodup := by
  induction evs generalizing m with
  | nil => exact h
  | cons e evs ih =>
    rw [List.foldl_cons]
    apply ih
    rw [stepSessions_keys]
    by_cases hc : containsKey m (sessionKey e)
    · rwa [if_pos hc]
    · rw [if_neg hc]
      have hnm : sessionKey e ∉ m.map Prod.fst :=
        fun hm => hc ((containsKey_iff_mem m (sessionKey e)).mpr hm)
      simp [List.nodup_append, h, hnm]

theorem sumEC_cons (q : String × SessionInfo) (m : List (String × SessionInfo)) :
    sumEC (q :: m) = q.2.eventCount + sumEC m := by
  simp [sumEC]

theorem sumEC_append (m l : List (String × SessionInfo)) :
    sumEC (m ++ l) = sumEC m + sumEC l := by
  simp [sumEC]

theorem containsKey_cons (q : String × α) (m : List (String × α)) (k : String) :
    containsKey (q :: m) k = (decide (q.1 = k) || containsKey m k) := by
  simp [containsKey]

theorem sumEC_modifyFirst_upd (ev : LogEvent) (k : String) (m : List (String × SessionInfo))
    (hc : containsKey m k = true) :
    sumEC (modifyFirst (updSession ev) k m) = sumEC m + 1 := by
  induction m with
  | nil => simp [containsKey] at hc
  | cons q m ih =>
    rw [containsKey_cons] at hc
    by_cases hq : q.1 = k
    · simp only [modifyFirst, if_pos hq, sumEC_cons]
      have : (updSession ev q.2).eventCount = q.2.eventCount + 1 := rfl
      rw [this]
      omega
    · simp only [modifyFirst, if_neg hq, sumEC_cons]
      have hc2 : containsKey m k = true := by
        rcases Bool.or_eq_true_iff.mp hc with h | h
        · exact absurd (of_decide_eq_true h) hq
        · exact h
      rw [ih hc2]
      omega

theorem sumEC_step (m : List (String × SessionInfo)) (ev : LogEvent) :
    sumEC (stepSessions m ev) = sumEC m + 1 := by
  simp only [stepSessions]
  by_cases hc : containsKey m (sessionKey ev)
  · rw [if_pos hc, sumEC_modifyFirst_upd _ _ _ hc]
  · rw [if_neg hc]
    have hc2 : containsKey (m ++ [(sessionKey ev, freshSession (sessionKey ev) ev)])
        (sessionKey ev) = true := by
      rw [containsKey_iff_mem]
      simp
    rw [sumEC_modifyFirst_upd _ _ _ hc2, sumEC_append]
    have : sumEC [(sessionKey ev, freshSession (sessionKey ev) ev)] = 0 := rfl
    omega

theorem sumEC_fold (evs : List LogEvent) (m : List (String × SessionInfo)) :
    sumEC (evs.foldl stepSessions m) = sumEC m + evs.length := by
  induction evs generalizing m with
  | nil => rfl
  | cons e evs ih =>
    rw [List.foldl_cons, ih, sumEC_step]
    simp
    omega

/- ------------------------------------------------------------------ -/
/- Liveness classification lemmas.                                     -/
/- ------------------------------------------------------------------ -/

theorem classify_fields (p : String → Option Int) (now : Int) (s : SessionInfo) :
    (classifySession p now s).id = s.id ∧
    (classifySession p now s).cwd = s.cwd ∧
    (classifySession p now s).eventCount = s.eventCount ∧
    (classifySession p now s).lastTs = s.lastTs ∧
    (classifySession p now s).hasSessionStart = s.hasSessionStart ∧
    (classifySession p now s).hasSessionEnd = s.hasSessionEnd ∧
    (classifySession p now s).orphanCount = s.orphanCount := by
  unfold classifySession
  split
  · cases p s.lastTs <;> exact ⟨rfl, rfl, rfl, rfl, rfl, rfl, rfl⟩
  · exact ⟨rfl, rfl, rfl, rfl, rfl, rfl, rfl⟩

theorem classify_live_formula (p : String → Option Int) (now : Int) (s : SessionInfo)
    (h1 : s.hasSessionStart = true) (h2 : s.hasSessionEnd = false) (t : Int)
    (ht : p s.lastTs = some t) :
    (classifySession p now s).isLive = decide (now - t ≤ LIVE_THRESHOLD_MS) ∧
    (classifySession p now s).isStale = decide (LIVE_THRESHOLD_MS < now - t) := by
  unfold classifySession
  rw [if_pos ⟨h1, by simp [h2]⟩, ht]
  exact ⟨rfl, rfl⟩

theorem classify_ended (p : String → Option Int) (now : Int) (s : SessionInfo)
    (h : s.hasSessionStart = false ∨ s.hasSessionEnd = true) :
    (classifySession p now s).isLive = false ∧ (classifySession p now s).isStale = false := by
  unfold classifySession
  rw [if_neg]
  · exact ⟨rfl, rfl⟩
  · rintro ⟨ha, hb⟩
    rcases h with h | h
    · rw [h] at ha
      exact absurd ha (by simp)
    · exact hb h

theorem classify_not_both (p : String → Option Int) (now : Int) (s : SessionInfo) :
    ¬((classifySession p now s).isLive = true ∧ (classifySession p now s).isStale = true) := by
  unfold classifySession
  split
  · cases hp : p s.lastTs with
    | some t =>
      rintro ⟨h1, h2⟩
      simp only at h1 h2
      have hl : now - t ≤ LIVE_THRESHOLD_MS := of_decide_eq_true h1
      have hs : LIVE_THRESHOLD_MS < now - t := of_decide_eq_true h2
      omega
    | none =>
      rintro ⟨h1, _⟩
      exact absurd h1 (by simp)
  · rintro ⟨h1, _⟩
    exact absurd h1 (by simp)

/- ------------------------------------------------------------------ -/
/- Orphan-attribution fold lemmas.                                     -/
/- ------------------------------------------------------------------ -/

theorem orphanStep_keys (o : List String) (m : List (String × SessionInfo)) (ev : LogEvent) :
    (orphanStep o m ev).map Prod.fst = m.map Prod.fst := by
  unfold orphanStep
  cases preIdOf ev with
  | none => rfl
  | some i =>
    by_cases hi : i ∈ o
    · simp [hi, modifyFirst_keys]
    · simp [hi]

theorem orphanFold_keys (l : List LogEvent) (o : List String) (m : List (String × SessionInfo)) :
    (l.foldl (orphanStep o) m).map Prod.fst = m.map Prod.fst := by
  induction l generalizing m with
  | nil => rfl
  | cons e l ih => rw [List.foldl_cons, ih, orphanStep_keys]

theorem map_value_modifyFirst (g : SessionInfo → β) (f : SessionInfo → SessionInfo) (k : String)
    (m : List (String × SessionInfo)) (h : ∀ s, g (f s) = g s) :
    (modifyFirst f k m).map (fun q => g q.2) = m.map (fun q => g q.2) := by
  induction m with
  | nil => rfl
  | cons q m ih =>
    by_cases hq : q.1 = k <;> simp [modifyFirst, hq, ih, h]

theorem orphanFold_map_value (g : SessionInfo → β) (l : List LogEvent) (o : List String)
    (m : List (String × SessionInfo))
    (h : ∀ s, g { s with orphanCount := s.orphanCount + 1 } = g s) :
    (l.foldl (orphanStep o) m).map (fun q => g q.2) = m.map (fun q => g q.2) := by
  induction l generalizing m with
  | nil => rfl
  | cons e l ih =>
    rw [List.foldl_cons, ih]
    unfold orphanStep
    cases hp : preIdOf e with
    | none => rfl
    | some i =>
      by_cases hi : i ∈ o
      · simp only [hi, if_pos]
        exact map_value_modifyFirst g _ _ m h
      · simp [hi]

theorem countO_cons (o : List String) (e : LogEvent) (l : List LogEvent) (k : String) :
    countO o (e :: l) k =
      (if (decide (sessionKey e = k) &&
          (match preIdOf e with
           | some i => decide (i ∈ o)
           | none => false)) = true then 1 else 0) + countO o l k := by
  simp only [countO, List.filter_cons]
  split
  · simp [Nat.add_comm]
  · simp

theorem orphanFold_lookup (l : List LogEvent) (o : List String)
    (m : List (String × SessionInfo)) (k : String) :
    lookupA (l.foldl (orphanStep o) m) k =
      (lookupA m k).map (fun s => { s with orphanCount := s.orphanCount + countO o l k }) := by
  induction l generalizing m with
  | nil =>
    rw [List.foldl_nil]
    cases hlook : lookupA m k <;> rfl
  | cons e l ih =>
    rw [List.foldl_cons, ih, countO_cons]
    unfold orphanStep
    cases hp : preIdOf e with
    | none =>
      simp [hp]
    | some i =>
      by_cases hi : i ∈ o
      · by_cases hk : sessionKey e = k
        · subst hk
          simp only [hi, if_pos]
          rw [lookupA_modifyFirst_self]
          cases hlook : lookupA m (sessionKey e) with
          | none => simp [hlook]
          | some s => simp [hlook, hp, hi, Nat.add_assoc]
        · simp only [hi, if_pos]
          rw [lookupA_modifyFirst_other _ _ _ _ (fun hh => hk hh.symm)]
          simp [hp, hk]
      · simp [hp, hi]

/- ------------------------------------------------------------------ -/
/- Counter-map lemmas.                                                 -/
/- ------------------------------------------------------------------ -/

theorem lookupNat_cons (q : String × Nat) (m : List (String × Nat)) (k : String) :
    lookupNat (q :: m) k = if q.1 = k then q.2 else lookupNat m k := by
  rw [lookupNat, lookupA_cons]
  by_cases h : q.1 = k <;> simp [h, lookupNat]

theorem bumpCount_lookup (m : List (String × Nat)) (k k2 : String) :
    lookupNat (bumpCount m k) k2 = lookupNat m k2 + (if k = k2 then 1 else 0) := by
  induction m with
  | nil =>
    by_cases h : k = k2 <;> simp [bumpCount, lookupNat_cons, lookupNat, lookupA, h]
  | cons q m ih =>
    obtain ⟨n, c⟩ := q
    by_cases hn : n = k
    · subst hn
      simp only [bumpCount, if_pos rfl, lookupNat_cons]
      by_cases h2 : n = k2 <;> simp [h2, lookupNat_cons]
    · simp only [bumpCount, if_neg hn, lookupNat_cons]
      by_cases h2 : n = k2
      · have hkk : ¬ k = k2 := fun hh => hn (hh.trans h2.symm).symm
        simp [h2, hkk, lookupNat_cons]
      · simp [h2, ih, lookupNat_cons]

theorem bumpCount_keys (m : List (String × Nat)) (k : String) :
    (bumpCount m k).map Prod.fst =
      if k ∈ m.map Prod.fst then m.map Prod.fst else m.map Prod.fst ++ [k] := by
  induction m with
  | nil => simp [bumpCount]
  | cons q m ih =>
    obtain ⟨n, c⟩ := q
    by_cases hn : n = k
    · subst hn
      simp [bumpCount]
    · have hkn : ¬ k = n := fun hh => hn hh.symm
      simp only [bumpCount, if_neg hn, List.map_cons, ih, List.mem_cons]
      by_cases hk : k ∈ m.map Prod.fst <;> simp [hk, hkn]

theorem bumpCount_keys_nodup (m : List (String × Nat)) (k : String)
    (h : (m.map Prod.fst).Nodup) : ((bumpCount m k).map Prod.fst).Nodup := by
  rw [bumpCount_keys]
  by_cases hk : k ∈ m.map Prod.fst
  · rwa [if_pos hk]
  · rw [if_neg hk]
    simp [List.nodup_append, h, hk]

theorem countToolName_cons (e : LogEvent) (evs : List LogEvent) (k : String) :
    countToolName (e :: evs) k =
      (if truthy (toolNameOf e) = some k then 1 else 0) + countToolName evs k := by
  by_cases h : truthy (toolNameOf e) = some k
  · simp [countToolName, List.filter_cons, h, Nat.add_comm]
  · simp [countToolName, List.filter_cons, h]

theorem foldTool_lookup (evs : List LogEvent) (m : List (String × Nat)) (k : String) :
    lookupNat (evs.foldl stepTool m) k = lookupNat m k + countToolName evs k := by
  induction evs generalizing m with
  | nil => simp [countToolName]
  | cons e evs ih =>
    rw [List.foldl_cons, ih, countToolName_cons]
    unfold stepTool
    cases ht : truthy (toolNameOf e) with
    | none => simp [ht]
    | some t =>
      rw [bumpCount_lookup]
      by_cases hk : t = k <;>
        simp [hk, ht, Nat.add_assoc, Nat.add_comm, Nat.add_left_comm]

theorem foldTool_keys_nodup (evs : List LogEvent) (m : List (String × Nat))
    (h : (m.map Prod.fst).Nodup) : ((evs.foldl stepTool m).map Prod.fst).Nodup := by
  induction evs generalizing m with
  | nil => exact h
  | cons e evs ih =>
    rw [List.foldl_cons]
    apply ih
    unfold stepTool
    cases truthy (toolNameOf e) with
    | none => exact h
    | some t => exact bumpCount_keys_nodup m t h

theorem stepSkill_eq (m : List (String × Nat)) (ev : LogEvent) :
    stepSkill m ev =
      match skillNameOf ev with
      | some k => bumpCount m k
      | none => m := by
  unfold stepSkill skillNameOf
  by_cases h1 : ev.event = "PreToolUse" ∧ toolNameOf ev = some "Skill"
  · have hne : ¬ ev.event = "UserPromptSubmit" := by
      rw [h1.1]
      decide
    simp [h1, hne]
  · simp only [if_neg h1]
    by_cases h2 : ev.event = "UserPromptSubmit"
    · by_cases h3 : jsStartsWith (jsTrim ((promptOf ev).getD "")) "/" = true ∧
          isBuiltinCommand (jsTrim ((promptOf ev).getD "")) = false
      · simp [h1, h2, h3]
      · simp [h1, h2, h3]
    · simp [h1, h2]

theorem countOcc_cons (x : String) (l : List String) (k : String) :
    countOcc k (x :: l) = (if x = k then 1 else 0) + countOcc k l := by
  by_cases h : x = k
  · simp [countOcc, List.filter_cons, h, Nat.add_comm]
  · simp [countOcc, List.filter_cons, h]

theorem countOcc_filterMap_cons (f : LogEvent → Option String) (e : LogEvent)
    (l : List LogEvent) (k : String) :
    countOcc k ((e :: l).filterMap f) =
      (match f e with
       | some x => if x = k then 1 else 0
       | none => 0) + countOcc k (l.filterMap f) := by
  cases hf : f e with
  | none => simp [List.filterMap_cons, hf]
  | some x => simp [List.filterMap_cons, hf, countOcc_cons]

theorem foldSkill_lookup (evs : List LogEvent) (m : List (String × Nat)) (k : String) :
    lookupNat (evs.foldl stepSkill m) k =
      lookupNat m k + countOcc k (evs.filterMap skillNameOf) := by
  induction evs generalizing m with
  | nil => simp [countOcc]
  | cons e evs ih =>
    rw [List.foldl_cons, ih, stepSkill_eq, countOcc_filterMap_cons]
    cases hs : skillNameOf e with
    | none => simp
    | some x =>
      rw [bumpCount_lookup]
      by_cases hk : x = k <;>
        simp [hk, Nat.add_assoc, Nat.add_comm, Nat.add_left_comm]

theorem foldSkill_keys_nodup (evs : List LogEvent) (m : List (String × Nat))
    (h : (m.map Prod.fst).Nodup) : ((evs.foldl stepSkill m).map Prod.fst).Nodup := by
  induction evs generalizing m with
  | nil => exact h
  | cons e evs ih =>
    rw [List.foldl_cons]
    apply ih
    rw [stepSkill_eq]
    cases skillNameOf e with
    | none => exact h
    | some x => exact bumpCount_keys_nodup m x h

/- ------------------------------------------------------------------ -/
/- From a counter map to the sorted histogram.                         -/
/- ------------------------------------------------------------------ -/

theorem entryCount_eq_lookupNat (m : List (String × Nat))
    (le : ToolUsageEntry → ToolUsageEntry → Bool)
    (hn : (m.map Prod.fst).Nodup) (k : String) :
    entryCount (sortBy le (m.map (fun q => ⟨q.1, q.2⟩))) k = lookupNat m k := by
  have hperm := sortBy_perm le (m.map (fun q => (⟨q.1, q.2⟩ : ToolUsageEntry)))
  cases hf : (sortBy le (m.map (fun q => (⟨q.1, q.2⟩ : ToolUsageEntry)))).find?
      (fun e => decide (e.name = k)) with
  | none =>
    have hall := List.find?_eq_none.mp hf
    have hk : k ∉ m.map Prod.fst := by
      intro hmem
      rcases lookupA_isSome_of_mem_keys m k hmem with ⟨v, hv⟩
      have hmm : (⟨k, v⟩ : ToolUsageEntry) ∈ m.map (fun q => (⟨q.1, q.2⟩ : ToolUsageEntry)) :=
        List.mem_map.mpr ⟨(k, v), mem_of_lookupA m k v hv, rfl⟩
      have hin : (⟨k, v⟩ : ToolUsageEntry) ∈
          sortBy le (m.map (fun q => (⟨q.1, q.2⟩ : ToolUsageEntry))) :=
        hperm.mem_iff.mpr hmm
      have hfalse := hall _ hin
      simp at hfalse
    rw [entryCount, hf, lookupNat, lookupA_eq_none_of_not_mem m k hk]
    rfl
  | some e =>
    have hename : e.name = k := by simpa using List.find?_some hf
    have hmem : e ∈ m.map (fun q => (⟨q.1, q.2⟩ : ToolUsageEntry)) :=
      hperm.mem_iff.mp (List.mem_of_find?_eq_some hf)
    rcases List.mem_map.mp hmem with ⟨q, hq, hqe⟩
    have hkey : q.1 = k := by
      rw [← hename, ← hqe]
    have hpair : (q.1, q.2) ∈ m := hq
    have hval : lookupA m k = some q.2 := by
      rw [← hkey]
      exact lookupA_of_mem_nodup m q.1 q.2 hn hpair
    rw [entryCount, hf, lookupNat, hval, ← hqe]
    rfl

/- ------------------------------------------------------------------ -/
/- Opened/closed id set lemmas.                                        -/
/- ------------------------------------------------------------------ -/

theorem addId_mem (l : List String) (id a : String) :
    a ∈ addId l id ↔ a ∈ l ∨ a = id := by
  unfold addId
  by_cases h : id ∈ l
  · rw [if_pos h]
    constructor
    · exact Or.inl
    · rintro (ha | rfl)
      · exact ha
      · exact h
  · rw [if_neg h]
    simp [List.mem_append]

theorem addId_nodup (l : List String) (id : String) (h : l.Nodup) : (addId l id).Nodup := by
  unfold addId
  by_cases hm : id ∈ l
  · rwa [if_pos hm]
  · rw [if_neg hm]
    simp [List.nodup_append, h, hm]

theorem foldPre_mem (evs : List LogEvent) (l : List String) (a : String) :
    a ∈ evs.foldl stepPre l ↔ a ∈ l ∨ a ∈ evs.filterMap preIdOf := by
  induction evs generalizing l with
  | nil => simp
  | cons e evs ih =>
    rw [List.foldl_cons]
    cases hp : preIdOf e with
    | none =>
      have hstep : stepPre l e = l := by simp [stepPre, hp]
      rw [hstep, ih]
      simp [List.filterMap_cons, hp]
    | some i =>
      have hstep : stepPre l e = addId l i := by simp [stepPre, hp]
      rw [hstep, ih]
      simp [List.filterMap_cons, hp, addId_mem]
      tauto

theorem foldPre_nodup (evs : List LogEvent) (l : List String) (h : l.Nodup) :
    (evs.foldl stepPre l).Nodup := by
  induction evs generalizing l with
  | nil => exact h
  | cons e evs ih =>
    rw [List.foldl_cons]
    apply ih
    unfold stepPre
    cases preIdOf e with
    | none => exact h
    | some i => exact addId_nodup l i h

theorem foldPost_mem (evs : List LogEvent) (l : List String) (a : String) :
    a ∈ evs.foldl stepPost l ↔ a ∈ l ∨ a ∈ evs.filterMap postIdOf := by
  induction evs generalizing l with
  | nil => simp
  | cons e evs ih =>
    rw [List.foldl_cons]
    cases hp : postIdOf e with
    | none =>
      have hstep : stepPost l e = l := by simp [stepPost, hp]
      rw [hstep, ih]
      simp [List.filterMap_cons, hp]
    | some i =>
      have hstep : stepPost l e = addId l i := by simp [stepPost, hp]
      rw [hstep, ih]
      simp [List.filterMap_cons, hp, addId_mem]
      tauto

/- ------------------------------------------------------------------ -/
/- Projections of buildSummary onto the pipeline stages.               -/
/- ------------------------------------------------------------------ -/

theorem buildSummary_totalEvents (p : String → Option Int) (now : Int) (events : List LogEvent) :
    (buildSummary p now events).totalEvents = events.length := rfl

theorem buildSummary_sessions (p : String → Option Int) (now : Int) (events : List LogEvent) :
    (buildSummary p now events).sessions =
      sortBy byLastTsDesc ((attributedSessions p now events).map (fun q => q.2)) := rfl

theorem buildSummary_orphanIds (p : String → Option Int) (now : Int) (events : List LogEvent) :
    (buildSummary p now events).orphanIds = orphanList events := rfl

theorem buildSummary_orphanCount (p : String → Option Int) (now : Int) (events : List LogEvent) :
    (buildSummary p now events).orphanCount = (orphanList events).length := rfl

theorem buildSummary_toolUsage (p : String → Option Int) (now : Int) (events : List LogEvent) :
    (buildSummary p now events).toolUsage =
      sortBy byCountDesc ((mainState events).toolCounts.map (fun q => ⟨q.1, q.2⟩)) := rfl

theorem buildSummary_skillUsage (p : String → Option Int) (now : Int) (events : List LogEvent) :
    (buildSummary p now events).skillUsage =
      sortBy byCountDesc ((mainState events).skillCounts.map (fun q => ⟨q.1, q.2⟩)) := rfl

theorem mainState_sessions (events : List LogEvent) :
    (mainState events).sessions = events.foldl stepSessions [] :=
  foldState_sessions events initState

theorem mainState_toolCounts (events : List LogEvent) :
    (mainState events).toolCounts = events.foldl stepTool [] :=
  foldState_toolCounts events initState

theorem mainState_skillCounts (events : List LogEvent) :
    (mainState events).skillCounts = events.foldl stepSkill [] :=
  foldState_skillCounts events initState

theorem mainState_preToolIds (events : List LogEvent) :
    (mainState events).preToolIds = events.foldl stepPre [] :=
  foldState_preToolIds events initState

theorem mainState_postToolIds (events : List LogEvent) :
    (mainState events).postToolIds = events.foldl stepPost [] :=
  foldState_postToolIds events initState

/- ------------------------------------------------------------------ -/
/- Orphan id list characterization.                                   -/
/- ------------------------------------------------------------------ -/

theorem orphanList_mem (events : List LogEvent) (id : String) :
    id ∈ orphanList events ↔ isOrphanId events id := by
  unfold orphanList isOrphanId
  rw [mainState_preToolIds, mainState_postToolIds]
  simp only [List.mem_filter, decide_eq_true_eq]
  rw [foldPre_mem]
  constructor
  · rintro ⟨h1, h2⟩
    refine ⟨h1.resolve_left (by simp), fun hm => h2 ?_⟩
    rw [foldPost_mem]
    exact Or.inr hm
  · rintro ⟨h1, h2⟩
    refine ⟨Or.inr h1, fun hm => h2 ?_⟩
    rcases (foldPost_mem events [] id).mp hm with h | h
    · simp at h
    · exact h

theorem orphanList_nodup (events : List LogEvent) : (orphanList events).Nodup := by
  unfold orphanList
  rw [mainState_preToolIds]
  exact (foldPre_nodup events [] List.nodup_nil).filter _

theorem countO_orphanList (events : List LogEvent) (k : String) :
    countO (orphanList events) events k = countOrphanEvts events k := by
  unfold countO countOrphanEvts
  congr 1
  apply List.filter_congr
  intro e he
  cases hp : preIdOf e with
  | none => simp
  | some i => simp [decide_eq_decide.mpr (orphanList_mem events i)]

/- ------------------------------------------------------------------ -/
/- Full closed form of the attributed session map.                     -/
/- ------------------------------------------------------------------ -/

theorem attributed_lookup (p : String → Option Int) (now : Int) (events : List LogEvent)
    (k : String) :
    lookupA (attributedSessions p now events) k =
      (events.find? (fun e => decide (sessionKey e = k))).map (fun e0 =>
        { classifySession p now (applyAll (events.filter (fun e => decide (sessionKey e = k)))
            (freshSession k e0)) with
          orphanCount := (classifySession p now
            (applyAll (events.filter (fun e => decide (sessionKey e = k)))
              (freshSession k e0))).orphanCount + countOrphanEvts events k }) := by
  unfold attributedSessions
  rw [orphanFold_lookup]
  unfold classifiedSessions
  rw [lookupA_map_value, mainState_sessions, foldSessions_lookup]
  have hnil : lookupA ([] : List (String × SessionInfo)) k = none := rfl
  rw [hnil]
  cases hfind : events.find? (fun e => decide (sessionKey e = k)) with
  | none => rfl
  | some e0 => simp [countO_orphanList]

theorem attributed_keys_nodup (p : String → Option Int) (now : Int) (events : List LogEvent) :
    ((attributedSessions p now events).map Prod.fst).Nodup := by
  unfold attributedSessions
  rw [orphanFold_keys]
  unfold classifiedSessions
  have hmk : ((mainState events).sessions.map
      (fun q => (q.1, classifySession p now q.2))).map Prod.fst =
      (mainState events).sessions.map Prod.fst := by
    rw [List.map_map]
    rfl
  rw [hmk, mainState_sessions]
  exact foldSessions_keys_nodup events [] (by simp)

theorem mem_sessions_iff (p : String → Option Int) (now : Int) (events : List LogEvent)
    (s : SessionInfo) :
    s ∈ (buildSummary p now events).sessions ↔
      ∃ k, lookupA (attributedSessions p now events) k = some s := by
  rw [buildSummary_sessions, mem_sortBy]
  constructor
  · intro hm
    rcases List.mem_map.mp hm with ⟨q, hq, rfl⟩
    exact ⟨q.1, lookupA_of_mem_nodup _ q.1 q.2 (attributed_keys_nodup p now events) hq⟩
  · rintro ⟨k, hk⟩
    exact List.mem_map.mpr ⟨(k, s), mem_of_lookupA _ _ _ hk, rfl⟩

/- ------------------------------------------------------------------ -/
/- Field extraction for every session in the output.                   -/
/- ------------------------------------------------------------------ -/

theorem session_fields (p : String → Option Int) (now : Int) (events : List LogEvent)
    (s : SessionInfo) (h : s ∈ (buildSummary p now events).sessions) :
    ∃ k e0, events.find? (fun e => decide (sessionKey e = k)) = some e0 ∧
      s.id = k ∧
      s.eventCount = countKey k events ∧
      s.cwd = (truthy e0.cwd).getD "" ∧
      s.orphanCount = countOrphanEvts events k ∧
      ∃ b : SessionInfo,
        s.isLive = (classifySession p now b).isLive ∧
        s.isStale = (classifySession p now b).isStale ∧
        s.hasSessionStart = b.hasSessionStart ∧
        s.hasSessionEnd = b.hasSessionEnd ∧
        s.lastTs = b.lastTs := by
  rcases (mem_sessions_iff p now events s).mp h with ⟨k, hk⟩
  rw [attributed_lookup] at hk
  rcases Option.map_eq_some'.mp hk with ⟨e0, hfind, hs⟩
  have hcf := classify_fields p now
    (applyAll (events.filter (fun e => decide (sessionKey e = k))) (freshSession k e0))
  refine ⟨k, e0, hfind, ?_, ?_, ?_, ?_,
    ⟨applyAll (events.filter (fun e => decide (sessionKey e = k))) (freshSession k e0),
      ?_, ?_, ?_, ?_, ?_⟩⟩
  · rw [← hs]
    show (classifySession p now _).id = k
    rw [hcf.1, applyAll_id]
    rfl
  · rw [← hs]
    show (classifySession p now _).eventCount = countKey k events
    rw [hcf.2.2.1, applyAll_eventCount, countKey]
    exact Nat.zero_add _
  · rw [← hs]
    show (classifySession p now _).cwd = (truthy e0.cwd).getD ""
    rw [hcf.2.1, applyAll_cwd]
    rfl
  · rw [← hs]
    show (classifySession p now _).orphanCount + countOrphanEvts events k =
      countOrphanEvts events k
    rw [hcf.2.2.2.2.2.2, applyAll_orphanCount]
    exact Nat.zero_add _
  · rw [← hs]
  · rw [← hs]
  · rw [← hs]
    exact hcf.2.2.2.2.1
  · rw [← hs]
    exact hcf.2.2.2.2.2.1
  · rw [← hs]
    exact hcf.2.2.2.1

theorem session_exists_for_event (p : String → Option Int) (now : Int)
    (events : List LogEvent) (ev : LogEvent) (h : ev ∈ events) :
    ∃ s ∈ (buildSummary p now events).sessions, s.id = sessionKey ev := by
  have hsome : (events.find? (fun e => decide (sessionKey e = sessionKey ev))).isSome :=
    List.find?_isSome.mpr ⟨ev, h, by simp⟩
  rcases Option.isSome_iff_exists.mp hsome with ⟨e0, hf⟩
  have hlook := attributed_lookup p now events (sessionKey ev)
  rw [hf] at hlook
  rw [Option.map_some'] at hlook
  refine ⟨_, (mem_sessions_iff p now events _).mpr ⟨sessionKey ev, hlook⟩, ?_⟩
  show (classifySession p now _).id = sessionKey ev
  rw [(classify_fields p now _).1, applyAll_id]
  rfl

theorem attributed_id_consistent (p : String → Option Int) (now : Int)
    (events : List LogEvent) (q : String × SessionInfo)
    (hq : q ∈ attributedSessions p now events) : q.2.id = q.1 := by
  have hl := lookupA_of_mem_nodup _ q.1 q.2 (attributed_keys_nodup p now events) hq
  rw [attributed_lookup] at hl
  rcases Option.map_eq_some'.mp hl with ⟨e0, hfind, hs⟩
  rw [← hs]
  show (classifySession p now _).id = q.1
  rw [(classify_fields p now _).1, applyAll_id]
  rfl

theorem sessions_ids_nodup (p : String → Option Int) (now : Int) (events : List LogEvent) :
    (((buildSummary p now events).sessions).map (fun s => s.id)).Nodup := by
  rw [buildSummary_sessions]
  have hperm : (((attributedSessions p now events).map (fun q => q.2)).map
      (fun s => s.id)).Perm
      ((sortBy byLastTsDesc ((attributedSessions p now events).map (fun q => q.2))).map
        (fun s => s.id)) :=
    ((sortBy_perm byLastTsDesc _).map _).symm
  apply hperm.nodup
  rw [List.map_map]
  have hcongr : (attributedSessions p now events).map ((fun s => s.id) ∘ fun q => q.2) =
      (attributedSessions p now events).map Prod.fst := by
    apply List.map_congr_left
    intro q hq
    exact attributed_id_consistent p now events q hq
  rw [hcongr]
  exact attributed_keys_nodup p now events

theorem sessions_eventCount_sum (p : String → Option Int) (now : Int) (events : List LogEvent) :
    (((buildSummary p now events).sessions).map (fun s => s.eventCount)).sum = events.length := by
  rw [buildSummary_sessions]
  rw [List.Perm.sum_eq (List.Perm.map _ (sortBy_perm byLastTsDesc _))]
  rw [List.map_map]
  have h1 : (attributedSessions p now events).map ((fun s => s.eventCount) ∘ fun q => q.2) =
      (classifiedSessions p now events).map (fun q => q.2.eventCount) := by
    have hmv := orphanFold_map_value (fun s => s.eventCount) events (orphanList events)
      (classifiedSessions p now events) (fun s => rfl)
    exact hmv
  rw [h1]
  have h2 : (classifiedSessions p now events).map (fun q => q.2.eventCount) =
      (mainState events).sessions.map (fun q => q.2.eventCount) := by
    unfold classifiedSessions
    rw [List.map_map]
    apply List.map_congr_left
    intro q hq
    exact (classify_fields p now q.2).2.2.1
  rw [h2, mainState_sessions]
  have h3 := sumEC_fold events []
  unfold sumEC at h3
  rw [h3]
  simp

/- ------------------------------------------------------------------ -/
/- Histogram characterizations.                                        -/
/- ------------------------------------------------------------------ -/

theorem toolUsage_count (p : String → Option Int) (now : Int) (events : List LogEvent)
    (name : String) :
    entryCount (buildSummary p now events).toolUsage name = countToolName events name := by
  rw [buildSummary_toolUsage, mainState_toolCounts,
    entryCount_eq_lookupNat _ byCountDesc (foldTool_keys_nodup events [] (by simp)) name,
    foldTool_lookup events [] name]
  simp [lookupNat, lookupA]

theorem skillUsage_count (p : String → Option Int) (now : Int) (events : List LogEvent)
    (name : String) :
    entryCount (buildSummary p now events).skillUsage name =
      countOcc name (events.filterMap skillNameOf) := by
  rw [buildSummary_skillUsage, mainState_skillCounts,
    entryCount_eq_lookupNat _ byCountDesc (foldSkill_keys_nodup events [] (by simp)) name,
    foldSkill_lookup events [] name]
  simp [lookupNat, lookupA]

theorem orphanCount_card (events : List LogEvent) :
    (orphanList events).length =
      ((events.filterMap preIdOf).toFinset \ (events.filterMap postIdOf).toFinset).card := by
  rw [← List.toFinset_card_of_nodup (orphanList_nodup events)]
  congr 1
  ext x
  simp only [List.mem_toFinset, Finset.mem_sdiff]
  rw [orphanList_mem]
  unfold isOrphanId
  simp

/- ------------------------------------------------------------------ -/
/- Session-detail helper lemmas.                                       -/
/- ------------------------------------------------------------------ -/

theorem truthy_ne (o : Option String) (c : String) (h : truthy o = some c) : c ≠ "" := by
  cases o with
  | none => simp [truthy] at h
  | some s =>
    by_cases hs : s = "" <;> simp [truthy, hs] at h
    rw [← h]
    exact hs

theorem foldCwd_stable (l : List LogEvent) (a : String) (h : a ≠ "") :
    l.foldl (fun a e =>
      match truthy e.cwd with
      | some c => if a = "" then c else a
      | none => a) a = a := by
  induction l with
  | nil => rfl
  | cons e l ih =>
    rw [List.foldl_cons]
    cases hc : truthy e.cwd <;> simp [hc, h, ih]

theorem foldCwd_eq (l : List LogEvent) :
    l.foldl (fun a e =>
      match truthy e.cwd with
      | some c => if a = "" then c else a
      | none => a) "" = (firstNonEmptyCwd l).getD "" := by
  induction l with
  | nil => rfl
  | cons e l ih =>
    rw [List.foldl_cons]
    cases hc : truthy e.cwd with
    | none => simp [firstNonEmptyCwd, List.findSome?_cons, hc, ih]
    | some c =>
      have hne := truthy_ne e.cwd c hc
      simp [firstNonEmptyCwd, List.findSome?_cons, hc, foldCwd_stable l c hne]

theorem stepPreSkill_eq (m : List (String × Nat)) (e : LogEvent) :
    (if e.event = "PreToolUse" ∧ toolNameOf e = some "Skill" then
        bumpCount m ((truthy (summaryOf e)).getD "unknown")
      else m) =
      match preSkillNameOf e with
      | some k => bumpCount m k
      | none => m := by
  unfold preSkillNameOf
  by_cases h : e.event = "PreToolUse" ∧ toolNameOf e = some "Skill" <;> simp [h]

theorem foldPreSkill_lookup (evs : List LogEvent) (m : List (String × Nat)) (k : String) :
    lookupNat (evs.foldl (fun m e =>
        if e.event = "PreToolUse" ∧ toolNameOf e = some "Skill" then
          bumpCount m ((truthy (summaryOf e)).getD "unknown")
        else m) m) k =
      lookupNat m k + countOcc k (evs.filterMap preSkillNameOf) := by
  induction evs generalizing m with
  | nil => simp [countOcc]
  | cons e evs ih =>
    rw [List.foldl_cons, ih, stepPreSkill_eq, countOcc_filterMap_cons]
    cases hs : preSkillNameOf e with
    | none => simp
    | some x =>
      rw [bumpCount_lookup]
      by_cases hk : x = k <;>
        simp [hk, Nat.add_assoc, Nat.add_comm, Nat.add_left_comm]

theorem foldPreSkill_keys_nodup (evs : List LogEvent) (m : List (String × Nat))
    (h : (m.map Prod.fst).Nodup) :
    ((evs.foldl (fun m e =>
        if e.event = "PreToolUse" ∧ toolNameOf e = some "Skill" then
          bumpCount m ((truthy (summaryOf e)).getD "unknown")
        else m) m).map Prod.fst).Nodup := by
  induction evs generalizing m with
  | nil => exact h
  | cons e evs ih =>
    rw [List.foldl_cons]
    apply ih
    rw [stepPreSkill_eq]
    cases preSkillNameOf e with
    | none => exact h
    | some x => exact bumpCount_keys_nodup m x h

/- ------------------------------------------------------------------ -/
/- Search-handler characterization.                                    -/
/- ------------------------------------------------------------------ -/

theorem truthy_of_ne (o : Option String) (h : o ≠ some "") : truthy o = o := by
  cases o with
  | none => rfl
  | some s =>
    have hs : s ≠ "" := fun hh => h (congrArg some hh)
    simp [truthy, hs]

theorem filter_chain (p q : α → Bool) (l : List α) :
    (l.filter q).filter p = l.filter (fun a => q a && p a) := by
  induction l with
  | nil => rfl
  | cons a l ih =>
    by_cases hq : q a <;> by_cases hp : p a <;> simp [List.filter_cons, hq, hp, ih]

theorem handleSearch_char (events : List LogEvent) (args : SearchArgs)
    (h1 : args.event_type ≠ some "") (h2 : args.tool_name ≠ some "")
    (h3 : args.text_search ≠ some "") (h4 : args.session_id ≠ some "") :
    handleSearchEvents events args =
      { totalMatches := (events.filter (fun ev => matchPred args ev)).length
        results := ((events.filter (fun ev => matchPred args ev)).take
          (args.limit.getD 50)).map projEntry
        truncated := decide (args.limit.getD 50 <
          (events.filter (fun ev => matchPred args ev)).length) } := by
  obtain ⟨et, tn, tx, si, lim⟩ := args
  have het : truthy et = et := truthy_of_ne et h1
  have htn : truthy tn = tn := truthy_of_ne tn h2
  have htx : truthy tx = tx := truthy_of_ne tx h3
  have hsi : truthy si = si := truthy_of_ne si h4
  cases si <;> cases et <;> cases tn <;> cases tx <;>
    simp only [handleSearchEvents, het, htn, htx, hsi, matchPred, getSessionEvents,
      filter_chain, Bool.true_and, Bool.and_true, List.filter_true]

/- ------------------------------------------------------------------ -/
/- Session-detail characterizations.                                   -/
/- ------------------------------------------------------------------ -/

theorem detail_empty (events : List LogEvent) (sid : String)
    (h : getSessionEvents events sid = []) :
    buildSessionDetail events sid = ⟨sid, 0, none, none, "", [], [], []⟩ := by
  unfold buildSessionDetail
  rw [h]

theorem buildSessionDetail_cons (events : List LogEvent) (sid : String) (e0 : LogEvent)
    (rest : List LogEvent) (h : getSessionEvents events sid = e0 :: rest) :
    buildSessionDetail events sid =
      { sessionId := sid
        eventCount := (e0 :: rest).length
        firstTs := some ((e0 :: rest).foldl (fun a e => if jsLt e.ts a then e.ts else a) e0.ts)
        lastTs := some ((e0 :: rest).foldl (fun a e => if jsLt a e.ts then e.ts else a) e0.ts)
        cwd := (e0 :: rest).foldl (fun a e =>
          match truthy e.cwd with
          | some c => if a = "" then c else a
          | none => a) ""
        tools := sortBy byCountDesc (((e0 :: rest).foldl stepTool []).map (fun q => ⟨q.1, q.2⟩))
        skills := sortBy byCountDesc (((e0 :: rest).foldl (fun m e =>
          if e.event = "PreToolUse" ∧ toolNameOf e = some "Skill" then
            bumpCount m ((truthy (summaryOf e)).getD "unknown")
          else m) []).map (fun q => ⟨q.1, q.2⟩))
        events := (e0 :: rest).map (fun e =>
          DetailEventEntry.mk e.event e.ts (truthy (toolNameOf e)) (truthy (summaryOf e))) } := by
  unfold buildSessionDetail
  rw [h]

theorem detail_tools_count (events : List LogEvent) (sid : String) (name : String) :
    entryCount (buildSessionDetail events sid).tools name =
      countToolName (getSessionEvents events sid) name := by
  cases hse : getSessionEvents events sid with
  | nil =>
    rw [detail_empty events sid hse]
    simp [entryCount, countToolName]
  | cons e0 rest =>
    rw [buildSessionDetail_cons events sid e0 rest hse]
    show entryCount (sortBy byCountDesc
      (((e0 :: rest).foldl stepTool []).map (fun q => ⟨q.1, q.2⟩))) name =
      countToolName (e0 :: rest) name
    rw [entryCount_eq_lookupNat _ byCountDesc (foldTool_keys_nodup _ [] (by simp)) name,
      foldTool_lookup _ [] name]
    simp [lookupNat, lookupA]

theorem detail_skills_count (events : List LogEvent) (sid : String) (name : String) :
    entryCount (buildSessionDetail events sid).skills name =
      countOcc name ((getSessionEvents events sid).filterMap preSkillNameOf) := by
  cases hse : getSessionEvents events sid with
  | nil =>
    rw [detail_empty events sid hse]
    simp [entryCount, countOcc]
  | cons e0 rest =>
    rw [buildSessionDetail_cons events sid e0 rest hse]
    show entryCount (sortBy byCountDesc (((e0 :: rest).foldl (fun m e =>
        if e.event = "PreToolUse" ∧ toolNameOf e = some "Skill" then
          bumpCount m ((truthy (summaryOf e)).getD "unknown")
        else m) []).map (fun q => ⟨q.1, q.2⟩))) name =
      countOcc name ((e0 :: rest).filterMap preSkillNameOf)
    rw [entryCount_eq_lookupNat _ byCountDesc (foldPreSkill_keys_nodup _ [] (by simp)) name,
      foldPreSkill_lookup _ [] name]
    simp [lookupNat, lookupA]

theorem detail_events_eq (events : List LogEvent) (sid : String) :
    (buildSessionDetail events sid).events =
      (getSessionEvents events sid).map (fun e =>
        DetailEventEntry.mk e.event e.ts (truthy (toolNameOf e)) (truthy (summaryOf e))) := by
  cases hse : getSessionEvents events sid with
  | nil =>
    rw [detail_empty events sid hse]
    rfl
  | cons e0 rest =>
    rw [buildSessionDetail_cons events sid e0 rest hse]

theorem detail_cwd_eq (events : List LogEvent) (sid : String) :
    (buildSessionDetail events sid).cwd =
      (firstNonEmptyCwd (getSessionEvents events sid)).getD "" := by
  cases hse : getSessionEvents events sid with
  | nil =>
    rw [detail_empty events sid hse]
    rfl
  | cons e0 rest =>
    rw [buildSessionDetail_cons events sid e0 rest hse]
    show (e0 :: rest).foldl (fun a e =>
      match truthy e.cwd with
      | some c => if a = "" then c else a
      | none => a) "" = (firstNonEmptyCwd (e0 :: rest)).getD ""
    exact foldCwd_eq (e0 :: rest)

/- ------------------------------------------------------------------ -/
/- Remaining small lemmas.                                             -/
/- ------------------------------------------------------------------ -/

theorem getSessionEvents_mem (events : List LogEvent) (sid : String) (ev : LogEvent) :
    ev ∈ getSessionEvents events sid ↔
      ev ∈ events ∧ (ev.session_id.getD "" = sid ∨
        jsStartsWith (ev.session_id.getD "") sid = true) := by
  simp [getSessionEvents, List.mem_filter]

theorem chPfx_nil_iff (l : List Char) : chPfx l [] = true ↔ l = [] := by
  cases l <;> simp [chPfx]

theorem jsStartsWith_empty_iff (sid : String) : jsStartsWith "" sid = true ↔ sid = "" := by
  unfold jsStartsWith
  rw [show ("" : String).data = [] from rfl, chPfx_nil_iff]
  obtain ⟨d⟩ := sid
  constructor
  · intro h
    simp only at h
    rw [h]
  · intro h
    rw [h]

theorem countOcc_zero (l : List String) (a : String) (h : a ∉ l) : countOcc a l = 0 := by
  induction l with
  | nil => rfl
  | cons x l ih =>
    rw [countOcc_cons]
    have hx : ¬ x = a := fun hh => h (hh ▸ List.mem_cons_self x l)
    rw [if_neg hx, ih (fun hm => h (List.mem_cons_of_mem x hm))]

theorem countOcc_eq_one_of_nodup (l : List String) (a : String) (h : l.Nodup) (hm : a ∈ l) :
    countOcc a l = 1 := by
  induction l with
  | nil => simp at hm
  | cons x l ih =>
    rw [countOcc_cons]
    rcases List.mem_cons.mp hm with rfl | hm2
    · rw [if_pos rfl, countOcc_zero l a (List.nodup_cons.mp h).1]
    · have hx : ¬ x = a := by
        rintro rfl
        exact (List.nodup_cons.mp h).1 hm2
      rw [if_neg hx, ih (List.nodup_cons.mp h).2 hm2]

theorem countOrphanEvts_pos (events : List LogEvent) (k : String) (e : LogEvent)
    (he : e ∈ events) (hk : sessionKey e = k) (i : String) (hp : preIdOf e = some i)
    (hio : isOrphanId events i) : 1 ≤ countOrphanEvts events k := by
  unfold countOrphanEvts
  have hmem : e ∈ events.filter (fun e =>
      decide (sessionKey e = k) &&
      match preIdOf e with
      | some i => decide (isOrphanId events i)
      | none => false) := by
    apply List.mem_filter.mpr
    refine ⟨he, ?_⟩
    rw [hp]
    simp [hk, hio]
  exact List.length_pos.mpr (List.ne_nil_of_mem hmem)

/- ------------------------------------------------------------------ -/
/- Claim theorems.                                                     -/
/- ------------------------------------------------------------------ -/

/-- C1: for every event sequence, buildSummary reports totalEvents equal to
the input length, the eventCount fields of its sessions sum to the input
length, every session counts exactly the events of its own bucket key,
session ids are pairwise distinct, every event has a session bucket keyed
by sessionKey (its session_id, or the literal unknown when absent), and the
empty input yields the all-zero summary with empty arrays. -/
theorem C1_total_and_partition (p : String → Option Int) (now : Int) (events : List LogEvent) :
    (buildSummary p now events).totalEvents = events.length ∧
    (((buildSummary p now events).sessions).map (fun s => s.eventCount)).sum = events.length ∧
    (∀ s ∈ (buildSummary p now events).sessions, s.eventCount = countKey s.id events) ∧
    (((buildSummary p now events).sessions).map (fun s => s.id)).Nodup ∧
    (∀ ev ∈ events, ∃ s ∈ (buildSummary p now events).sessions, s.id = sessionKey ev) ∧
    (∀ ev ∈ events, ev.session_id = none → sessionKey ev = "unknown") ∧
    buildSummary p now [] = ⟨0, 0, 0, 0, 0, 0, 0, [], [], [], []⟩ := by
  refine ⟨rfl, sessions_eventCount_sum p now events, ?_,
    sessions_ids_nodup p now events, ?_, ?_, rfl⟩
  · intro s hs
    rcases session_fields p now events s hs with ⟨k, e0, hfind, hid, hec, hcwd, horph, hb⟩
    rw [hid]
    exact hec
  · intro ev hev
    exact session_exists_for_event p now events ev hev
  · intro ev hev hnone
    simp [sessionKey, hnone]

/-- C1 witness at a concrete input. -/
theorem C1_total_and_partition_witness :
    (buildSummary parseZero 0 [evStart]).totalEvents = 1 ∧
    sWa.eventCount = countKey sWa.id [evStart] ∧
    (∃ s ∈ (buildSummary parseZero 0 [evStart]).sessions, s.id = sessionKey evStart) := by
  refine ⟨(C1_total_and_partition parseZero 0 [evStart]).1, ?_, ?_⟩
  · exact (C1_total_and_partition parseZero 0 [evStart]).2.2.1 sWa (by decide)
  · exact (C1_total_and_partition parseZero 0 [evStart]).2.2.2.2.1 evStart (by decide)

/-- C2: buildSummary exposes orphanIds as a duplicate-free list holding
exactly the ids opened by some PreToolUse and closed by no PostToolUse or
PostToolUseFailure; orphanCount is the length of that list and equals the
cardinality of the set difference P minus C; and every session's
orphanCount equals the number of its own PreToolUse events whose opened id
is orphaned. -/
theorem C2_orphans (p : String → Option Int) (now : Int) (events : List LogEvent) :
    ((buildSummary p now events).orphanIds).Nodup ∧
    (∀ id, id ∈ (buildSummary p now events).orphanIds ↔
      (id ∈ events.filterMap preIdOf ∧ id ∉ events.filterMap postIdOf)) ∧
    (buildSummary p now events).orphanCount = (buildSummary p now events).orphanIds.length ∧
    (buildSummary p now events).orphanCount =
      ((events.filterMap preIdOf).toFinset \ (events.filterMap postIdOf).toFinset).card ∧
    (∀ s ∈ (buildSummary p now events).sessions,
      s.orphanCount = countOrphanEvts events s.id) := by
  rw [buildSummary_orphanIds, buildSummary_orphanCount]
  refine ⟨orphanList_nodup events, ?_, rfl, orphanCount_card events, ?_⟩
  · intro id
    rw [orphanList_mem]
    exact Iff.rfl
  · intro s hs
    rcases session_fields p now events s hs with ⟨k, e0, hfind, hid, hec, hcwd, horph, hb⟩
    rw [hid]
    exact horph

/-- C2 witness at a concrete input. -/
theorem C2_orphans_witness :
    sW10a.orphanCount = countOrphanEvts events10W sW10a.id :=
  (C2_orphans parseZero 0 events10W).2.2.2.2 sW10a (by decide)

/-- C3: every event carrying a truthy tool name adds one to that name's
global usage count, whatever the event type, so the histogram entry of each
name equals the number of events naming it; in particular a two-event input
of one PreToolUse and one PostToolUse both naming T yields count 2. -/
theorem C3_tool_counting (p : String → Option Int) (now : Int) (events : List LogEvent)
    (name : String) :
    entryCount (buildSummary p now events).toolUsage name = countToolName events name ∧
    (∀ (e1 e2 : LogEvent) (T : String),
      e1.event = "PreToolUse" → e2.event = "PostToolUse" →
      truthy (toolNameOf e1) = some T → truthy (toolNameOf e2) = some T →
      entryCount (buildSummary p now [e1, e2]).toolUsage T = 2) := by
  refine ⟨toolUsage_count p now events name, ?_⟩
  intro e1 e2 T h1 h2 ht1 ht2
  rw [toolUsage_count]
  simp [countToolName, List.filter_cons, ht1, ht2]

/-- C3 witness at a concrete input. -/
theorem C3_tool_counting_witness :
    entryCount (buildSummary parseZero 0 [evPreA, evPostB]).toolUsage "Bash" = 2 :=
  (C3_tool_counting parseZero 0 [] "Bash").2 evPreA evPostB "Bash"
    (by decide) (by decide) (by decide) (by decide)

/-- C4: the skill histogram of buildSummary counts exactly the events with a
skill contribution: PreToolUse events of the Skill tool keyed by their
truthy tool_input_summary (unknown when absent or empty), and
UserPromptSubmit events whose trimmed prompt starts with a slash and whose
first token is not a built-in command (compared case-insensitively), keyed
by the token minus the slash; both sources share one counter and no other
event contributes. -/
theorem C4_skill_histogram (p : String → Option Int) (now : Int) (events : List LogEvent)
    (name : String) :
    entryCount (buildSummary p now events).skillUsage name =
      countOcc name (events.filterMap skillNameOf) :=
  skillUsage_count p now events name

/-- C5 counterexample: on a session holding one UserPromptSubmit invoking
the custom slash command myskill, buildSessionDetail returns an empty skill
histogram although the buildSummary aggregation rules count myskill once on
the same subset, and the per-event detail field is absent although the
event carries a prompt. -/
theorem C5_counterexample :
    (buildSessionDetail [evC5] "s").skills = [] ∧
    countOcc "myskill" ((getSessionEvents [evC5] "s").filterMap skillNameOf) = 1 ∧
    (buildSessionDetail [evC5] "s").events.map (fun e => e.detail) = [none] ∧
    promptOf evC5 = some "/myskill" := by decide

/-- C5 amended: buildSessionDetail recomputes, on exactly the selected
subset, the tool histogram by the same rule as buildSummary, but its skill
histogram counts only the PreToolUse/Skill source (UserPromptSubmit slash
commands are not counted), and each per-event entry carries its detail from
the truthy tool_input_summary only, never from the prompt. -/
theorem C5_detail_aggregation (p : String → Option Int) (now : Int) (events : List LogEvent)
    (sid : String) (name : String) :
    entryCount (buildSessionDetail events sid).tools name =
      entryCount (buildSummary p now (getSessionEvents events sid)).toolUsage name ∧
    entryCount (buildSessionDetail events sid).skills name =
      countOcc name ((getSessionEvents events sid).filterMap preSkillNameOf) ∧
    (buildSessionDetail events sid).events =
      (getSessionEvents events sid).map (fun e =>
        DetailEventEntry.mk e.event e.ts (truthy (toolNameOf e)) (truthy (summaryOf e))) := by
  refine ⟨?_, detail_skills_count events sid name, detail_events_eq events sid⟩
  rw [detail_tools_count, toolUsage_count]

/-- C6: in every summary, no session is both live and stale; a session with
hasSessionEnd, or without hasSessionStart, is neither; and a started,
unended session whose lastTs parses to t is live exactly when now minus t
is at most five minutes and stale exactly otherwise. -/
theorem C6_liveness (p : String → Option Int) (now : Int) (events : List LogEvent) :
    ∀ s ∈ (buildSummary p now events).sessions,
      (¬(s.isLive = true ∧ s.isStale = true)) ∧
      ((s.hasSessionEnd = true ∨ s.hasSessionStart = false) →
        s.isLive = false ∧ s.isStale = false) ∧
      (s.hasSessionStart = true → s.hasSessionEnd = false →
        ∀ t : Int, p s.lastTs = some t →
          s.isLive = decide (now - t ≤ 5 * 60 * 1000) ∧
          s.isStale = decide ((5 * 60 * 1000 : Int) < now - t)) := by
  intro s hs
  rcases session_fields p now events s hs with
    ⟨k, e0, hfind, hid, hec, hcwd, horph, b, hlv, hst, hstart, hend, hlast⟩
  refine ⟨?_, ?_, ?_⟩
  · rw [hlv, hst]
    exact classify_not_both p now b
  · intro h
    rw [hlv, hst]
    apply classify_ended
    rcases h with h | h
    · right
      rw [← hend]
      exact h
    · left
      rw [← hstart]
      exact h
  · intro h1 h2 t ht
    rw [hstart] at h1
    rw [hend] at h2
    rw [hlast] at ht
    rw [hlv, hst]
    exact classify_live_formula p now b h1 h2 t ht

/-- C6 witness at a concrete input. -/
theorem C6_liveness_witness :
    sWa.isLive = decide ((0 : Int) - 0 ≤ 5 * 60 * 1000) ∧
    sWa.isStale = decide ((5 * 60 * 1000 : Int) < (0 : Int) - 0) :=
  (C6_liveness parseZero 0 [evStart] sWa (by decide)).2.2 (by decide) (by decide) 0 rfl

/-- C7 counterexample: on an event lacking a session_id, the selection
predicate of the claim (default id unknown) matches the selector unknown,
yet getSessionEvents selects nothing because its default is the empty
string, and buildSessionDetail returns the zeroed detail object. -/
theorem C7_counterexample :
    (List.filter (fun e => specSelects e "unknown") [evC7]).length = 1 ∧
    getSessionEvents [evC7] "unknown" = [] ∧
    buildSessionDetail [evC7] "unknown" = ⟨"unknown", 0, none, none, "", [], [], []⟩ := by
  decide

/-- C7 amended: selection defaults a missing session_id to the empty string,
selecting exactly the events whose defaulted id equals the selector or
starts with it; an event without session_id is therefore selected only by
the empty selector; and an empty selection makes buildSessionDetail return,
without failing, the zeroed detail object with eventCount 0, null
timestamps, empty cwd and empty collections. -/
theorem C7_selection (events : List LogEvent) (sid : String) :
    (∀ ev, ev ∈ getSessionEvents events sid ↔
      (ev ∈ events ∧ (ev.session_id.getD "" = sid ∨
        jsStartsWith (ev.session_id.getD "") sid = true))) ∧
    (∀ ev ∈ events, ev.session_id = none →
      (ev ∈ getSessionEvents events sid ↔ sid = "")) ∧
    (getSessionEvents events sid = [] →
      buildSessionDetail events sid = ⟨sid, 0, none, none, "", [], [], []⟩) := by
  refine ⟨fun ev => getSessionEvents_mem events sid ev, ?_, detail_empty events sid⟩
  intro ev hev hnone
  rw [getSessionEvents_mem, hnone]
  constructor
  · rintro ⟨hm, hor | hws⟩
    · exact hor.symm
    · exact (jsStartsWith_empty_iff sid).mp hws
  · intro h
    exact ⟨hev, Or.inl h.symm⟩

/-- C7 witness at a concrete input. -/
theorem C7_selection_witness :
    (evC7 ∈ getSessionEvents [evC7] "" ↔ ("" : String) = "") ∧
    buildSessionDetail [evC7] "xyz" = ⟨"xyz", 0, none, none, "", [], [], []⟩ := by
  constructor
  · exact (C7_selection [evC7] "").2.1 evC7 (by decide) rfl
  · exact (C7_selection [evC7] "xyz").2.2 (by decide)

/-- C8 counterexample: in a session whose first event lacks a cwd and whose
second event carries one, the first non-empty cwd is the second event's,
buildSessionDetail reports it, but buildSummary reports the empty string
taken from the first event alone. -/
theorem C8_counterexample :
    firstNonEmptyCwd [evC8a, evC8b] = some "/late" ∧
    (buildSummary parseZero 0 [evC8a, evC8b]).sessions.map (fun s => s.cwd) = [""] ∧
    (buildSessionDetail [evC8a, evC8b] "s8").cwd = "/late" := by
  decide

/-- C8 amended: buildSummary freezes each session's cwd at the truthy cwd of
the first event of that session (empty when that event has none), while
buildSessionDetail reports the first truthy cwd over all selected events. -/
theorem C8_cwd (p : String → Option Int) (now : Int) (events : List LogEvent) :
    (∀ s ∈ (buildSummary p now events).sessions,
      ∃ e0, events.find? (fun e => decide (sessionKey e = s.id)) = some e0 ∧
        s.cwd = (truthy e0.cwd).getD "") ∧
    (∀ sid, (buildSessionDetail events sid).cwd =
      (firstNonEmptyCwd (getSessionEvents events sid)).getD "") := by
  refine ⟨?_, fun sid => detail_cwd_eq events sid⟩
  intro s hs
  rcases session_fields p now events s hs with ⟨k, e0, hfind, hid, hec, hcwd, horph, hb⟩
  refine ⟨e0, ?_, hcwd⟩
  rw [hid]
  exact hfind

/-- C8 witness at a concrete input. -/
theorem C8_cwd_witness :
    (∃ e0, [evStart].find? (fun e => decide (sessionKey e = sWa.id)) = some e0 ∧
      sWa.cwd = (truthy e0.cwd).getD "") ∧
    (buildSessionDetail [evC8a, evC8b] "s8").cwd =
      (firstNonEmptyCwd (getSessionEvents [evC8a, evC8b] "s8")).getD "" := by
  constructor
  · exact (C8_cwd parseZero 0 [evStart]).1 sWa (by decide)
  · exact (C8_cwd parseZero 0 [evC8a, evC8b]).2 "s8"

/-- C9: with every supplied filter a non-empty string, the search handler
returns exactly the events satisfying the conjunction of the supplied
filters (session prefix, exact event type, exact tool name,
case-insensitive substring over tool_input_summary or prompt), reports the
true match count, returns at most the cap (limit, defaulting to 50) of
projected rows, and sets truncated exactly when the true count exceeds the
cap. -/
theorem C9_search (events : List LogEvent) (args : SearchArgs)
    (h1 : args.event_type ≠ some "") (h2 : args.tool_name ≠ some "")
    (h3 : args.text_search ≠ some "") (h4 : args.session_id ≠ some "") :
    (handleSearchEvents events args).totalMatches =
      (events.filter (fun ev => matchPred args ev)).length ∧
    (handleSearchEvents events args).results =
      ((events.filter (fun ev => matchPred args ev)).take (args.limit.getD 50)).map projEntry ∧
    ((handleSearchEvents events args).truncated = true ↔
      args.limit.getD 50 < (events.filter (fun ev => matchPred args ev)).length) ∧
    (handleSearchEvents events args).results.length ≤ args.limit.getD 50 := by
  have h := handleSearch_char events args h1 h2 h3 h4
  rw [h]
  refine ⟨rfl, rfl, by simp, ?_⟩
  rw [List.length_map]
  exact List.length_take_le _ _

/-- C9 witness at a concrete input. -/
theorem C9_search_witness :
    (handleSearchEvents events10W argsW).totalMatches = 3 ∧
    (handleSearchEvents events10W argsW).results.length ≤ argsW.limit.getD 50 ∧
    ((handleSearchEvents events10W argsW).truncated = true ↔
      argsW.limit.getD 50 < (events10W.filter (fun ev => matchPred argsW ev)).length) := by
  have h := C9_search events10W argsW (by decide) (by decide) (by decide) (by decide)
  refine ⟨?_, h.2.2.2, h.2.2.1⟩
  rw [h.1]
  decide

/-- C10: tool-use correlation is global, not per session: an id closed by
any PostToolUse or PostToolUseFailure event is never orphaned, whichever
session opened it; every session's orphanCount counts exactly its own
PreToolUse events with orphaned ids, so a globally closed id contributes to
no session; and an orphaned id opened in several sessions gives each such
session a positive orphanCount while appearing exactly once in the global
orphan id list. -/
theorem C10_global_correlation (p : String → Option Int) (now : Int) (events : List LogEvent) :
    (∀ id, id ∈ events.filterMap postIdOf → id ∉ (buildSummary p now events).orphanIds) ∧
    (∀ s ∈ (buildSummary p now events).sessions,
      s.orphanCount = countOrphanEvts events s.id) ∧
    (∀ id, isOrphanId events id →
      ∀ s ∈ (buildSummary p now events).sessions,
        (∃ e ∈ events, sessionKey e = s.id ∧ preIdOf e = some id) → 1 ≤ s.orphanCount) ∧
    (∀ id, isOrphanId events id →
      countOcc id (buildSummary p now events).orphanIds = 1) := by
  rw [buildSummary_orphanIds]
  refine ⟨?_, ?_, ?_, ?_⟩
  · intro id hpost hmem
    exact ((orphanList_mem events id).mp hmem).2 hpost
  · intro s hs
    rcases session_fields p now events s hs with ⟨k, e0, hfind, hid, hec, hcwd, horph, hb⟩
    rw [hid]
    exact horph
  · rintro id hio s hs ⟨e, he, hk, hp⟩
    rcases session_fields p now events s hs with ⟨k, e0, hfind, hid, hec, hcwd, horph, hb⟩
    rw [horph]
    rw [hid] at hk
    exact countOrphanEvts_pos events k e he hk id hp hio
  · intro id hio
    exact countOcc_eq_one_of_nodup _ id (orphanList_nodup events)
      ((orphanList_mem events id).mpr hio)

/-- C10 witness at a concrete input. -/
theorem C10_global_correlation_witness :
    ("id1" ∉ (buildSummary parseZero 0 events10W).orphanIds) ∧
    (1 ≤ sW10a.orphanCount) ∧
    countOcc "id2" (buildSummary parseZero 0 events10W).orphanIds = 1 := by
  have h := C10_global_correlation parseZero 0 events10W
  refine ⟨h.1 "id1" (by decide), ?_, h.2.2.2 "id2" (by decide)⟩
  exact h.2.2.1 "id2" (by decide) sW10a (by decide) ⟨evPreA2, by decide, by decide, by decide⟩
